import Mathlib

/-!
# The `kfetch` character device

A shallow embedding of `asgmt3/kfetch_mod_312551014.c`.

* C strings are lists of characters; the terminator is the character `NUL`.
* A C array (`info_buf`, `logo`, `kfetch_buf`) is the flat list of its bytes.  A write that
  would leave the array, or a read that finds no terminator inside it, has no defined
  result and is modelled by `none`.  A write that leaves a *row* of a two-dimensional array
  but stays inside the array lands in the following row, as it does in memory.
* Machine integers are `Int`/`Nat` with explicit wrap-around.
* The module state is the record `Dev`; every file operation takes the state and returns
  its return value together with the new state.
-/

namespace Kfetch

/-! ## Constants of the module -/

def KFETCH_RELEASE : Nat := 1 <<< 0
def KFETCH_NUM_CPUS : Nat := 1 <<< 1
def KFETCH_CPU_MODEL : Nat := 1 <<< 2
def KFETCH_MEM : Nat := 1 <<< 3
def KFETCH_UPTIME : Nat := 1 <<< 4
def KFETCH_NUM_PROCS : Nat := 1 <<< 5

def BUF_SIZE : Nat := 1024

def DEV_NOT_USED : Int := 0
def DEV_EXCLUSIVE_OPEN : Int := 1

/-- Modelled from the spec: the error code of the `Busy` failure.  The value is the one of
`EBUSY` in the kernel's `errno-base.h`, a header that is not part of the sources. -/
def EBUSY : Int := 16

/-- Nanoseconds per second (`NSEC_PER_SEC` of the kernel's time headers). -/
def NSEC_PER_SEC : Int := 1000000000

/-! ## Bytes, C strings and arrays -/

/-- The terminator of a C string. -/
def NUL : Char := Char.ofNat 0

/-- The C string that starts at the head of a byte sequence: the bytes before the first
terminator. -/
def cstr (bs : List Char) : List Char := bs.takeWhile (fun c => c != NUL)

/-- Store the bytes `bs` into the array `mem` at offset `off`; undefined when the bytes do not
fit into the array. -/
def store (mem : List Char) (off : Nat) (bs : List Char) : Option (List Char) :=
  if off + bs.length ≤ mem.length then
    some (mem.take off ++ bs ++ mem.drop (off + bs.length))
  else none

/-- Read the C string at offset `off` of the array `mem`; undefined when no terminator is
found inside the array. -/
def cstrAt (mem : List Char) (off : Nat) : Option (List Char) :=
  if off + (cstr (mem.drop off)).length < mem.length then some (cstr (mem.drop off)) else none

/-- The call `strcpy(mem + off, src)` for a C string `src`: the characters of `src` and the
terminator are stored, without any bound. -/
def strcpy (mem : List Char) (off : Nat) (src : List Char) : Option (List Char) :=
  store mem off (src ++ [NUL])

/-- The call `strcat(buf, src)`: `src` and a terminator are stored at the terminator of the
string already in `buf`. -/
def strcat (buf : List Char) (src : List Char) : Option (List Char) :=
  (cstrAt buf 0).bind fun cur => store buf cur.length (src ++ [NUL])

/-- The C string left in a field of `size` bytes by `snprintf(field, size, ...)` when the
complete formatted text is `out`: at most `size - 1` characters are kept. -/
def snprintf (size : Nat) (out : List Char) : List Char := out.take (size - 1)

/-! ## Integer conversions -/

/-- The value of a `w`-bit two's complement integer holding `v` modulo `2 ^ w`. -/
def sint (w : Nat) (v : Int) : Int := (v + 2 ^ (w - 1)) % 2 ^ w - 2 ^ (w - 1)

/-- Decimal text of a signed integer, as printed by the conversions `%d`, `%ld`, `%lld`. -/
def fmt_d (v : Int) : List Char :=
  if v < 0 then '-' :: Nat.toDigits 10 v.natAbs else Nat.toDigits 10 v.natAbs

/-- The four bytes of an `int` in memory (little endian, the module is x86 only). -/
def int_bytes (v : Int) : List Nat :=
  let u := (v % 2 ^ 32).toNat
  [u % 256, u / 256 % 256, u / 65536 % 256, u / 16777216 % 256]

/-- The unsigned value of a little-endian byte sequence. -/
def le_value : List Nat → Nat
  | [] => 0
  | b :: bs => b % 256 + 256 * le_value bs

/-- The `int` stored in four bytes of memory. -/
def bytes_int (bs : List Nat) : Int := sint 32 (le_value bs)

/-! ## Module state, open and release -/

/-- The global variables of the module: the mask, the exclusive-open flag, and the usage
count of the module that `try_module_get` and `module_put` maintain. -/
structure Dev where
  info_mask : Int
  device_opened : Int
  refcnt : Int
deriving DecidableEq

/-- The state right after the module is loaded. -/
def Dev.init : Dev := { info_mask := -1, device_opened := DEV_NOT_USED, refcnt := 0 }

/-- The atomic compare-and-exchange: returns the value read and the value left in the
variable. -/
def atomic_cmpxchg (v old new : Int) : Int × Int :=
  if v = old then (v, new) else (v, v)

def kfetch_open (d : Dev) : Int × Dev :=
  let r := atomic_cmpxchg d.device_opened DEV_NOT_USED DEV_EXCLUSIVE_OPEN
  if r.1 ≠ 0 then (-EBUSY, { d with device_opened := r.2 })
  else (0, { d with device_opened := r.2, refcnt := d.refcnt + 1 })

def kfetch_release (d : Dev) : Int × Dev :=
  (0, { d with device_opened := DEV_NOT_USED, refcnt := d.refcnt - 1 })

/-! ## Write -/

/-- The call `copy_from_user(to, from, n)`, following its kernel documentation.  `dst` holds
the bytes of the destination object, `user` the bytes that can be read at the user address
(the access faults behind them).  The result is the number of bytes that could not be copied
and the new bytes of the destination: the copied bytes, then zero bytes up to `n`, then the
untouched rest.  A request that is larger than the destination object writes outside it and
has no defined result. -/
def copy_from_user (dst : List Nat) (user : List Nat) (n : Nat) : Option (Nat × List Nat) :=
  if n ≤ dst.length then
    some (n - min n user.length,
      (user.take (min n user.length)).map (fun b => b % 256)
        ++ List.replicate (n - min n user.length) 0 ++ dst.drop n)
  else none

/-- The write operation: `buffer` holds the bytes readable at the user address, `length`
is the requested length. -/
def kfetch_write (d : Dev) (buffer : List Nat) (length : Nat) : Option (Int × Dev) :=
  (copy_from_user (int_bytes d.info_mask) buffer length).map fun r =>
    if r.1 ≠ 0 then (-1, { d with info_mask := bytes_int r.2 })
    else (0, { d with info_mask := bytes_int r.2 })

/-! ## Read -/

/-- The host facts that one call of `kfetch_read` obtains from the kernel. -/
structure Snapshot where
  /-- Bytes at `utsname()->nodename`. -/
  nodename : List Char
  /-- Bytes at `utsname()->release`. -/
  release : List Char
  /-- Bytes at `cpu_data(0).x86_model_id`. -/
  x86_model_id : List Char
  num_online_cpus : Nat
  num_present_cpus : Nat
  freeram : Nat
  totalram : Nat
  mem_unit : Nat
  /-- Number of processes visited by `for_each_process`. -/
  nr_procs : Nat
  /-- Value of `ktime_get_coarse_boottime()` in nanoseconds. -/
  boottime : Int

/-- The local `struct sys_info`: each member as the C string it holds. -/
structure sys_info where
  hostname : List Char
  divider : List Char
  kernel : List Char
  cpu : List Char
  cpus : List Char
  mem : List Char
  procs : List Char
  uptime : List Char

/-- Whole megabytes of `pages * unit` bytes, in `unsigned long` arithmetic. -/
def mem_mb (pages unit : Nat) : Nat := (pages % 2 ^ 64) * (unit % 2 ^ 32) % 2 ^ 64 / (1024 * 1024)

/-- Whole minutes of a boot time: `ktime_divns(t, NSEC_PER_SEC) / 60` with C division. -/
def uptime_mins (t : Int) : Int := Int.tdiv (Int.tdiv (sint 64 t) NSEC_PER_SEC) 60

/-- The part of `kfetch_read` that fetches and formats the information. -/
def collect (s : Snapshot) : sys_info :=
  { hostname := cstr s.nodename
    divider := List.replicate (cstr s.nodename).length '-'
    kernel := snprintf 64 ("Kernel:   ".toList ++ cstr s.release)
    cpu := snprintf 64 ("CPU:      ".toList ++ cstr s.x86_model_id)
    cpus := snprintf 64 ("CPUs:     ".toList ++ fmt_d (sint 32 s.num_online_cpus)
      ++ " / ".toList ++ fmt_d (sint 32 s.num_present_cpus))
    mem := snprintf 64 ("Mem:      ".toList ++ fmt_d (sint 64 (mem_mb s.freeram s.mem_unit))
      ++ " MB / ".toList ++ fmt_d (sint 64 (mem_mb s.totalram s.mem_unit)) ++ " MB".toList)
    procs := snprintf 64 ("Procs:    ".toList ++ fmt_d (sint 32 s.nr_procs))
    uptime := snprintf 64 ("Uptime:   ".toList ++ fmt_d (sint 64 (uptime_mins s.boottime))
      ++ " mins".toList) }

/-- The eight string literals copied into `logo`. -/
def logo_lines : List (List Char) :=
  [ "                   ".toList,
    "        .-.        ".toList,
    "       (.. |       ".toList,
    "       <>  |       ".toList,
    "      / --- \\      ".toList,
    "     ( |   | |     ".toList,
    "   |\\\\_)___/\\)/\\   ".toList,
    "  <__)------(__/   ".toList ]

/-- The array `char logo[8][20]` after the eight `strcpy` calls. -/
def logo : Option (List Char) :=
  (logo_lines.enum).foldlM (fun mem p => strcpy mem (20 * p.1) p.2) (List.replicate (8 * 20) NUL)

/-- The test `info_mask & flag` of an `int` mask against a flag constant. -/
def flag_set (mask : Int) (flag : Nat) : Bool := (mask % 2 ^ 32).toNat &&& flag != 0

/-- The statement `strcpy(info_buf[info_cnt++], src)` on the pair of `info_buf` and
`info_cnt`. -/
def info_put (st : List Char × Nat) (src : List Char) : Option (List Char × Nat) :=
  (strcpy st.1 (64 * st.2) src).map fun mem => (mem, st.2 + 1)

/-- The statement `if (c) strcpy(info_buf[info_cnt++], src)`. -/
def info_put_if (c : Bool) (st : List Char × Nat) (src : List Char) :
    Option (List Char × Nat) :=
  if c then info_put st src else some st

/-- The array `char info_buf[8][64]` and the counter `info_cnt` after the selected lines
have been copied. -/
def fill_info_buf (info : sys_info) (mask : Int) : Option (List Char × Nat) :=
  (info_put (List.replicate (8 * 64) NUL, 0) info.hostname).bind fun st =>
  (info_put st info.divider).bind fun st =>
  (info_put_if (flag_set mask KFETCH_RELEASE) st info.kernel).bind fun st =>
  (info_put_if (flag_set mask KFETCH_CPU_MODEL) st info.cpu).bind fun st =>
  (info_put_if (flag_set mask KFETCH_NUM_CPUS) st info.cpus).bind fun st =>
  (info_put_if (flag_set mask KFETCH_MEM) st info.mem).bind fun st =>
  (info_put_if (flag_set mask KFETCH_NUM_PROCS) st info.procs).bind fun st =>
  info_put_if (flag_set mask KFETCH_UPTIME) st info.uptime

/-- One round of the loop that concatenates the output: row `i` of the logo and row `i` of
`info_buf` are appended to `kfetch_buf`, after a newline for every row but the first. -/
def concat_row (logo_mem info_buf : List Char) (buf : List Char) (i : Nat) :
    Option (List Char) :=
  (if i ≠ 0 then strcat buf ['\n'] else some buf).bind fun buf =>
  (cstrAt logo_mem (20 * i)).bind fun l =>
  (strcat buf l).bind fun buf =>
  (cstrAt info_buf (64 * i)).bind fun f =>
  strcat buf f

/-- The array `kfetch_buf` after the concatenation loop. -/
def concat_output (logo_mem info_buf : List Char) : Option (List Char) :=
  (List.range 8).foldlM (concat_row logo_mem info_buf) (List.replicate BUF_SIZE NUL)

/-- The array `kfetch_buf` that `kfetch_read` builds for a snapshot and a mask. -/
def render (s : Snapshot) (mask : Int) : Option (List Char) :=
  logo.bind fun logo_mem =>
  (fill_info_buf (collect s) mask).bind fun st =>
  concat_output logo_mem st.1

/-- The report: the C string in `kfetch_buf`. -/
def report (s : Snapshot) (mask : Int) : Option (List Char) :=
  (render s mask).bind fun buf => cstrAt buf 0

/-- The strings that the concatenation loop reads from the eight rows of `info_buf`. -/
def info_rows (s : Snapshot) (mask : Int) : Option (List (List Char)) :=
  (fill_info_buf (collect s) mask).bind fun st =>
  (List.range 8).mapM fun i => cstrAt st.1 (64 * i)

/-- The call `copy_to_user(to, from, n)`: `ucap` bytes can be written at the user address.
The result is the number of bytes that could not be copied and the bytes delivered. -/
def copy_to_user (ucap : Nat) (src : List Char) (n : Nat) : Nat × List Char :=
  (n - min n ucap, src.take (min n ucap))

/-- What a call of `kfetch_read` leaves behind: its return value, the bytes delivered to
the caller, the module state and the file offset. -/
structure ReadResult where
  ret : Int
  delivered : List Char
  dev : Dev
  offset : Int
deriving DecidableEq

/-- The read operation.  `ucap` is the number of bytes writable at the user address,
`length` the requested length, `offset` the value behind the offset pointer. -/
def kfetch_read (d : Dev) (s : Snapshot) (ucap : Nat) (length : Nat) (offset : Int) :
    Option ReadResult :=
  (render s d.info_mask).bind fun kfetch_buf =>
  (cstrAt kfetch_buf 0).map fun text =>
    let bytes_read : Nat := if length > text.length then text.length else length
    let r := copy_to_user ucap kfetch_buf bytes_read
    if r.1 ≠ 0 then { ret := -1, delivered := r.2, dev := d, offset := offset }
    else { ret := bytes_read, delivered := r.2, dev := d, offset := offset }

/-! ## Callers of open and release -/

/-- What a caller does to the device: an open attempt, or the release of an open it holds. -/
inductive Event where
  | try_open (caller : Nat)
  | close (caller : Nat)
deriving DecidableEq

/-- The module state together with the callers that hold a successful open which they have
not released yet. -/
structure Sys where
  dev : Dev
  holders : List Nat
deriving DecidableEq

/-- The system right after the module is loaded: nobody holds the device. -/
def Sys.init : Sys := { dev := Dev.init, holders := [] }

/-- One event.  An open attempt runs `kfetch_open` and makes the caller a holder when it
returns 0.  A release is possible only for a caller that holds the device; it runs
`kfetch_release`. -/
def step (σ : Sys) : Event → Option Sys
  | Event.try_open c =>
    some { dev := (kfetch_open σ.dev).2,
           holders := if (kfetch_open σ.dev).1 = 0 then c :: σ.holders else σ.holders }
  | Event.close c =>
    if c ∈ σ.holders then
      some { dev := (kfetch_release σ.dev).2, holders := σ.holders.erase c }
    else none

/-- A sequence of events; `none` when one of them is not possible. -/
def run (σ : Sys) (evs : List Event) : Option Sys := evs.foldlM step σ

/-- The invariant of the exclusive-open flag. -/
def gate_inv (σ : Sys) : Prop :=
  σ.holders.length ≤ 1 ∧ (σ.dev.device_opened = DEV_EXCLUSIVE_OPEN ↔ σ.holders ≠ []) ∧
    (σ.dev.device_opened = DEV_NOT_USED ∨ σ.dev.device_opened = DEV_EXCLUSIVE_OPEN)

/-! ## Counting flags and rows -/

/-- The number of the six defined flags that are set in a mask. -/
def flag_count (mask : Int) : Nat :=
  ([KFETCH_RELEASE, KFETCH_NUM_CPUS, KFETCH_CPU_MODEL, KFETCH_MEM, KFETCH_UPTIME,
    KFETCH_NUM_PROCS].filter (flag_set mask)).length

/-- The number of rows whose info fragment is not empty. -/
def filled (rows : List (List Char)) : Nat := rows.countP (fun r => !r.isEmpty)

/-! ## Concrete snapshots -/

/-- A snapshot with a short host name. -/
def sample : Snapshot :=
  { nodename := "node1".toList
    release := "5.19.12".toList
    x86_model_id := "Intel(R) Core(TM) i7".toList
    num_online_cpus := 4
    num_present_cpus := 8
    freeram := 100000
    totalram := 2000000
    mem_unit := 4096
    nr_procs := 123
    boottime := 3600000000000 }

/-- A snapshot whose host name has 64 characters, the longest one that the 65 bytes of the
`nodename` field hold. -/
def host64 : Snapshot := { sample with nodename := List.replicate 64 'a' }

/-- A snapshot with an empty host name. -/
def no_host : Snapshot := { sample with nodename := [] }

/-! ## Masks restricted to the flag bits, and calls that are not writes -/

/-- The C expression `a & b` on two `int` values: the bitwise conjunction of the two 32-bit
patterns, read as a signed value. -/
def int_and (a b : Int) : Int := sint 32 (((a % 2 ^ 32).toNat &&& (b % 2 ^ 32).toNat : Nat) : Int)

/-- A call that is not a write: an open attempt, a release or a read. -/
inductive Call where
  | opens
  | releases
  | reads (s : Snapshot) (ucap n : Nat) (offset : Int)

/-- The module state after a call that is not a write; undefined when a read is. -/
def call (d : Dev) : Call → Option Dev
  | Call.opens => some (kfetch_open d).2
  | Call.releases => some (kfetch_release d).2
  | Call.reads s ucap n offset => (kfetch_read d s ucap n offset).map fun r => r.dev

/-- The module state after a sequence of calls none of which is a write. -/
def calls (d : Dev) (cs : List Call) : Option Dev := cs.foldlM call d

/-! ## The layout of the arrays, for the proofs -/

/-- A run of `n` terminator bytes. -/
def zeros (n : Nat) : List Char := List.replicate n NUL

/-- A row of width `w` that holds the string `f` at its start and terminators behind it. -/
def pad (w : Nat) (f : List Char) : List Char := f ++ zeros (w - f.length)

/-- The bytes of an array of rows of width `w` that hold the given strings. -/
def rows_mem (w : Nat) (rows : List (List Char)) : List Char := (rows.map (pad w)).flatten

/-- The C string found at the start of the first row of `rows_mem w rows`: a row that is
filled completely has no terminator of its own and the string runs on into the next row. -/
def read_run (w : Nat) : List (List Char) → List Char
  | [] => []
  | f :: fs => if f.length < w then f else f ++ read_run w fs

/-- A line that is present when its flag is set. -/
def sel (c : Bool) (x : List Char) : List (List Char) := if c then [x] else []

/-- The optional lines that a mask selects, in the order in which `kfetch_read` copies
them. -/
def optional_lines (info : sys_info) (mask : Int) : List (List Char) :=
  sel (flag_set mask KFETCH_RELEASE) info.kernel ++ sel (flag_set mask KFETCH_CPU_MODEL) info.cpu
    ++ sel (flag_set mask KFETCH_NUM_CPUS) info.cpus ++ sel (flag_set mask KFETCH_MEM) info.mem
    ++ sel (flag_set mask KFETCH_NUM_PROCS) info.procs
    ++ sel (flag_set mask KFETCH_UPTIME) info.uptime

/-- The bytes of `info_buf` when the strings `done` have been copied into its first rows. -/
def lay (done : List (List Char)) : List Char :=
  rows_mem 64 done ++ zeros (512 - 64 * done.length)

/-- The bounds that make the copies into `info_buf` stay inside the array. -/
structure info_fits (info : sys_info) : Prop where
  hostname : info.hostname.length ≤ 64
  divider : info.divider.length ≤ 64
  kernel : info.kernel.length < 64
  cpu : info.cpu.length < 64
  cpus : info.cpus.length < 64
  mem : info.mem.length < 64
  procs : info.procs.length < 64
  uptime : info.uptime.length < 64

/-- The bytes of `kfetch_buf` when it holds the string `text`. -/
def buf_of (text : List Char) : List Char := text ++ zeros (BUF_SIZE - text.length)

/-- What round `i` of the concatenation loop appends, for the strings `L i` and `R i` read
from row `i` of the logo and of `info_buf`. -/
def row_text (L R : Nat → List Char) (i : Nat) : List Char :=
  (if i ≠ 0 then ['\n'] else []) ++ L i ++ R i

/-- The strings copied into the eight rows of `info_buf`: host name, divider, the selected
lines, and nothing in the remaining rows. -/
def all_rows (info : sys_info) (mask : Int) : List (List Char) :=
  info.hostname :: info.divider :: (optional_lines info mask
    ++ List.replicate (6 - (optional_lines info mask).length) [])

/-- The strings read back from the eight rows of `info_buf`. -/
def run_rows (info : sys_info) (mask : Int) : List (List Char) :=
  (List.range 8).map fun i => read_run 64 ((all_rows info mask).drop i)

/-- The text that the concatenation loop builds from the logo and the given info rows. -/
def report_text (rows : List (List Char)) : List Char :=
  ((List.range 8).map (row_text (fun i => logo_lines.getD i []) (fun i => rows.getD i []))).flatten

/-- The character `x` occurs in no member of the information record. -/
def absent (x : Char) (info : sys_info) : Prop :=
  ∀ f ∈ [info.hostname, info.divider, info.kernel, info.cpu, info.cpus, info.mem, info.procs,
    info.uptime], x ∉ f

/-! ## Theorems -/

/-! ### C strings and stores -/

theorem zeros_length (n : Nat) : (zeros n).length = n := by simp [zeros]

theorem zeros_add (a b : Nat) : zeros a ++ zeros b = zeros (a + b) := by
  unfold zeros
  exact (List.replicate_add a b NUL).symm

theorem zeros_succ (n : Nat) : zeros (n + 1) = NUL :: zeros n := rfl

theorem nul_not_mem_cstr (bs : List Char) : NUL ∉ cstr bs := by
  intro h
  have h2 : (NUL != NUL) = true := List.mem_takeWhile_imp (p := fun c => c != NUL) h
  rw [bne_self_eq_false] at h2
  exact Bool.false_ne_true h2

theorem cstr_nil : cstr [] = [] := rfl

theorem cstr_nul_cons (rest : List Char) : cstr (NUL :: rest) = [] := by
  simp [cstr, List.takeWhile]

theorem cstr_append_of_no_nul (s rest : List Char) (hs : NUL ∉ s) :
    cstr (s ++ rest) = s ++ cstr rest := by
  unfold cstr
  apply List.takeWhile_append_of_pos
  intro a ha
  have : a ≠ NUL := fun h => hs (h ▸ ha)
  simpa using this

theorem cstr_append_nul (s rest : List Char) (hs : NUL ∉ s) : cstr (s ++ NUL :: rest) = s := by
  rw [cstr_append_of_no_nul s _ hs, cstr_nul_cons, List.append_nil]

theorem store_zero_tail (pre bs : List Char) (k : Nat) (h : bs.length ≤ k) :
    store (pre ++ zeros k) pre.length bs = some (pre ++ bs ++ zeros (k - bs.length)) := by
  unfold store
  have h1 : pre.length + bs.length ≤ (pre ++ zeros k).length := by
    simp [zeros_length]; exact h
  rw [if_pos h1]
  congr 2
  · simp
  · rw [List.drop_append_eq_append_drop]
    simp [zeros, List.drop_replicate]

/-! ### Arrays of rows -/

theorem pad_length (w : Nat) (f : List Char) (h : f.length ≤ w) : (pad w f).length = w := by
  simp [pad, zeros_length]; omega

theorem rows_mem_nil (w : Nat) : rows_mem w [] = [] := rfl

theorem rows_mem_cons (w : Nat) (f : List Char) (fs : List (List Char)) :
    rows_mem w (f :: fs) = pad w f ++ rows_mem w fs := by
  simp [rows_mem]

theorem rows_mem_append (w : Nat) (a b : List (List Char)) :
    rows_mem w (a ++ b) = rows_mem w a ++ rows_mem w b := by
  simp [rows_mem]

theorem rows_mem_length (w : Nat) (rows : List (List Char)) (h : ∀ f ∈ rows, f.length ≤ w) :
    (rows_mem w rows).length = w * rows.length := by
  induction rows with
  | nil => simp [rows_mem_nil]
  | cons f fs ih =>
    rw [rows_mem_cons, List.length_append, pad_length w f (h f (List.mem_cons_self _ _)),
      ih (fun g hg => h g (List.mem_cons_of_mem _ hg)), List.length_cons]
    ring

theorem rows_mem_replicate_nil (w j : Nat) :
    rows_mem w (List.replicate j []) = zeros (w * j) := by
  induction j with
  | zero => rfl
  | succ j ih =>
    rw [List.replicate_succ, rows_mem_cons, ih]
    simp only [pad, List.nil_append, List.length_nil, Nat.sub_zero, zeros_add]
    congr 1; ring

theorem strcpy_rows (w : Nat) (done : List (List Char)) (f : List Char) (n : Nat)
    (hdone : ∀ g ∈ done, g.length ≤ w) (hf : f.length ≤ w) (hn : f.length + 1 ≤ n)
    (hw : w ≤ n) :
    strcpy (rows_mem w done ++ zeros n) (w * done.length) f
      = some (rows_mem w (done ++ [f]) ++ zeros (n - w)) := by
  unfold strcpy
  rw [← rows_mem_length w done hdone, store_zero_tail _ _ _ (by simpa using hn)]
  rw [rows_mem_append, rows_mem_cons, rows_mem_nil, List.append_nil]
  simp only [pad, List.append_assoc, List.length_append, List.length_singleton]
  congr 3
  have e1 : [NUL] ++ zeros (n - (f.length + 1)) = zeros (n - f.length) := by
    have : n - f.length = (n - (f.length + 1)) + 1 := by omega
    rw [this, zeros_succ]; rfl
  rw [e1, zeros_add]
  congr 1; omega

theorem drop_rows_mem (w : Nat) (rows : List (List Char)) (i : Nat)
    (h : ∀ f ∈ rows, f.length ≤ w) :
    (rows_mem w rows).drop (w * i) = rows_mem w (rows.drop i) := by
  induction rows generalizing i with
  | nil => simp [rows_mem_nil]
  | cons f fs ih =>
    cases i with
    | zero => simp
    | succ i =>
      have hl := pad_length w f (h f (List.mem_cons_self _ _))
      rw [rows_mem_cons, List.drop_succ_cons, ← ih i (fun g hg => h g (List.mem_cons_of_mem _ hg))]
      have : w * (i + 1) = (pad w f).length + w * i := by rw [hl]; ring
      rw [this, List.drop_append]

theorem cstr_rows_mem (w : Nat) (rows : List (List Char)) (h : ∀ f ∈ rows, f.length ≤ w)
    (hnul : ∀ f ∈ rows, NUL ∉ f) : cstr (rows_mem w rows) = read_run w rows := by
  induction rows with
  | nil => rfl
  | cons f fs ih =>
    have hf := h f (List.mem_cons_self _ _)
    have hn := hnul f (List.mem_cons_self _ _)
    rw [rows_mem_cons, read_run]
    by_cases hlt : f.length < w
    · rw [if_pos hlt]
      have : w - f.length = (w - f.length - 1) + 1 := by omega
      rw [pad, this, zeros_succ, List.append_assoc, List.cons_append, cstr_append_nul _ _ hn]
    · rw [if_neg hlt]
      have : w - f.length = 0 := by omega
      rw [pad, this]
      show cstr ((f ++ []) ++ rows_mem w fs) = _
      rw [List.append_nil, cstr_append_of_no_nul _ _ hn,
        ih (fun g hg => h g (List.mem_cons_of_mem _ hg))
          (fun g hg => hnul g (List.mem_cons_of_mem _ hg))]

theorem read_run_of_lt (w : Nat) (f : List Char) (fs : List (List Char)) (h : f.length < w) :
    read_run w (f :: fs) = f := by
  rw [read_run, if_pos h]

theorem read_run_length_lt (w : Nat) (rows : List (List Char)) (hne : rows ≠ [])
    (h : ∀ f ∈ rows, f.length ≤ w) (hlast : ∀ f, rows.getLast? = some f → f.length < w) :
    (read_run w rows).length < w * rows.length := by
  induction rows with
  | nil => exact absurd rfl hne
  | cons f fs ih =>
    have hf := h f (List.mem_cons_self _ _)
    rw [read_run, List.length_cons]
    by_cases hlt : f.length < w
    · rw [if_pos hlt]
      have : w * (fs.length + 1) = w * fs.length + w := by ring
      omega
    · rw [if_neg hlt]
      cases fs with
      | nil => exact absurd (hlast f rfl) hlt
      | cons g gs =>
        have := ih (by simp) (fun x hx => h x (List.mem_cons_of_mem _ hx))
          (fun x hx => hlast x (by rw [List.getLast?_cons_cons]; exact hx))
        rw [List.length_append]
        have e : w * ((g :: gs).length + 1) = w * (g :: gs).length + w := by ring
        omega

theorem cstrAt_rows_mem (w : Nat) (rows : List (List Char)) (i : Nat) (hi : i < rows.length)
    (h : ∀ f ∈ rows, f.length ≤ w) (hnul : ∀ f ∈ rows, NUL ∉ f)
    (hlast : ∀ f, rows.getLast? = some f → f.length < w) :
    cstrAt (rows_mem w rows) (w * i) = some (read_run w (rows.drop i)) := by
  have hsub : ∀ f ∈ rows.drop i, f ∈ rows := fun f hf => List.mem_of_mem_drop hf
  have hne : rows.drop i ≠ [] := by
    intro e
    have := congrArg List.length e
    simp at this; omega
  have hl : (read_run w (rows.drop i)).length < w * (rows.drop i).length :=
    read_run_length_lt w _ hne (fun f hf => h f (hsub f hf)) (by
      intro f hf
      apply hlast
      rw [← hf]
      exact (List.getLast?_drop ..).symm ▸ (by simp [hi.not_le]))
  unfold cstrAt
  rw [drop_rows_mem w rows i h, cstr_rows_mem w _ (fun f hf => h f (hsub f hf))
    (fun f hf => hnul f (hsub f hf)), rows_mem_length w rows h]
  rw [if_pos]
  rw [List.length_drop] at hl
  have : w * (rows.length - i) = w * rows.length - w * i := Nat.mul_sub w rows.length i
  have : w * i ≤ w * rows.length := Nat.mul_le_mul_left w hi.le
  omega

/-! ### Formatted numbers -/

theorem toDigitsCore_mem (fuel : Nat) : ∀ (n : Nat) (acc : List Char) (c : Char),
    c ∈ Nat.toDigitsCore 10 fuel n acc → c ∈ acc ∨ ∃ d, d < 10 ∧ c = Nat.digitChar d := by
  induction fuel with
  | zero => intro n acc c h; exact Or.inl h
  | succ fuel ih =>
    intro n acc c h
    rw [Nat.toDigitsCore] at h
    have hd : ∀ x, x ∈ Nat.digitChar (n % 10) :: acc →
        x ∈ acc ∨ ∃ d, d < 10 ∧ x = Nat.digitChar d := by
      intro x hx
      rcases List.mem_cons.mp hx with rfl | hx
      · exact Or.inr ⟨n % 10, Nat.mod_lt _ (by decide), rfl⟩
      · exact Or.inl hx
    by_cases h0 : n / 10 = 0
    · simp only [h0, if_true] at h
      exact hd c h
    · simp only [h0, if_false] at h
      rcases ih _ _ _ h with h1 | h1
      · exact hd c h1
      · exact Or.inr h1

theorem digitChar_ge (d : Nat) (h : d < 10) : 32 ≤ (Nat.digitChar d).toNat := by
  interval_cases d <;> decide

theorem fmt_d_ge (v : Int) : ∀ c ∈ fmt_d v, 32 ≤ c.toNat := by
  have key : ∀ n c, c ∈ Nat.toDigits 10 n → 32 ≤ c.toNat := by
    intro n c hc
    rcases toDigitsCore_mem _ _ _ _ hc with h | ⟨d, hd, rfl⟩
    · exact absurd h (List.not_mem_nil _)
    · exact digitChar_ge d hd
  intro c hc
  unfold fmt_d at hc
  split at hc
  · rcases List.mem_cons.mp hc with rfl | h
    · decide
    · exact key _ _ h
  · exact key _ _ hc

/-! ### Filling `info_buf` -/

theorem sel_length_le (c : Bool) (x : List Char) : (sel c x).length ≤ 1 := by
  cases c <;> simp [sel]

theorem mem_sel (c : Bool) (x y : List Char) (h : y ∈ sel c x) : y = x := by
  cases c with
  | false => simp [sel] at h
  | true => simpa [sel] using h

theorem info_put_lay (done : List (List Char)) (f : List Char)
    (hdone : ∀ g ∈ done, g.length ≤ 64) (hf : f.length ≤ 64)
    (hfit : 64 * done.length + f.length + 1 ≤ 512) (hrow : done.length < 8) :
    info_put (lay done, done.length) f = some (lay (done ++ [f]), (done ++ [f]).length) := by
  unfold info_put lay
  simp only []
  rw [strcpy_rows 64 done f _ hdone hf (by omega) (by omega)]
  simp only [Option.map_some', List.length_append, List.length_singleton]
  congr 4

theorem info_put_if_lay (c : Bool) (done : List (List Char)) (f : List Char)
    (hdone : ∀ g ∈ done, g.length ≤ 64) (hf : f.length < 64) (hrow : done.length < 8) :
    info_put_if c (lay done, done.length) f
      = some (lay (done ++ sel c f), (done ++ sel c f).length) := by
  cases c
  · simp [info_put_if, sel]
  · simp only [info_put_if, sel, if_true]
    exact info_put_lay done f hdone hf.le (by omega) hrow

theorem optional_lines_lt (info : sys_info) (mask : Int) (h : info_fits info) :
    ∀ f ∈ optional_lines info mask, f.length < 64 := by
  intro f hf
  simp only [optional_lines, List.mem_append] at hf
  rcases hf with ((((hf | hf) | hf) | hf) | hf) | hf <;> rw [mem_sel _ _ _ hf]
  · exact h.kernel
  · exact h.cpu
  · exact h.cpus
  · exact h.mem
  · exact h.procs
  · exact h.uptime

theorem optional_lines_length (info : sys_info) (mask : Int) :
    (optional_lines info mask).length ≤ 6 := by
  simp only [optional_lines, List.length_append]
  have h1 := sel_length_le (flag_set mask KFETCH_RELEASE) info.kernel
  have h2 := sel_length_le (flag_set mask KFETCH_CPU_MODEL) info.cpu
  have h3 := sel_length_le (flag_set mask KFETCH_NUM_CPUS) info.cpus
  have h4 := sel_length_le (flag_set mask KFETCH_MEM) info.mem
  have h5 := sel_length_le (flag_set mask KFETCH_NUM_PROCS) info.procs
  have h6 := sel_length_le (flag_set mask KFETCH_UPTIME) info.uptime
  omega

theorem fill_info_buf_eq (info : sys_info) (mask : Int) (h : info_fits info) :
    fill_info_buf info mask
      = some (lay (info.hostname :: info.divider :: optional_lines info mask),
          (info.hostname :: info.divider :: optional_lines info mask).length) := by
  have h1 := sel_length_le (flag_set mask KFETCH_RELEASE) info.kernel
  have h2 := sel_length_le (flag_set mask KFETCH_CPU_MODEL) info.cpu
  have h3 := sel_length_le (flag_set mask KFETCH_NUM_CPUS) info.cpus
  have h4 := sel_length_le (flag_set mask KFETCH_MEM) info.mem
  have h5 := sel_length_le (flag_set mask KFETCH_NUM_PROCS) info.procs
  have hh := h.hostname
  have hd := h.divider
  have hle : ∀ (l : List (List Char)), (∀ f ∈ l, f.length < 64) →
      ∀ g ∈ info.hostname :: info.divider :: l, g.length ≤ 64 := by
    intro l hl g hg
    rcases List.mem_cons.mp hg with rfl | hg
    · exact hh
    · rcases List.mem_cons.mp hg with rfl | hg
      · exact hd
      · exact (hl g hg).le
  have hsel : ∀ c x, x.length < 64 → ∀ f ∈ sel c x, f.length < 64 := by
    intro c x hx f hf; rw [mem_sel _ _ _ hf]; exact hx
  have happ : ∀ (a b : List (List Char)), (∀ f ∈ a, f.length < 64) → (∀ f ∈ b, f.length < 64) →
      ∀ f ∈ a ++ b, f.length < 64 := by
    intro a b ha hb f hf
    rcases List.mem_append.mp hf with hf | hf
    · exact ha f hf
    · exact hb f hf
  have e0 : ((List.replicate (8 * 64) NUL, 0) : List Char × Nat) = (lay [], ([] : List (List Char)).length) := rfl
  unfold fill_info_buf
  rw [e0, info_put_lay [] _ (by simp) hh (by simp; omega) (by simp), Option.some_bind]
  rw [info_put_lay _ _ (by simpa using hh) hd (by simp; omega) (by simp), Option.some_bind]
  simp only [List.nil_append, List.singleton_append, List.cons_append]
  have a1 := hsel (flag_set mask KFETCH_RELEASE) _ h.kernel
  have a2 := happ _ _ a1 (hsel (flag_set mask KFETCH_CPU_MODEL) _ h.cpu)
  have a3 := happ _ _ a2 (hsel (flag_set mask KFETCH_NUM_CPUS) _ h.cpus)
  have a4 := happ _ _ a3 (hsel (flag_set mask KFETCH_MEM) _ h.mem)
  have a5 := happ _ _ a4 (hsel (flag_set mask KFETCH_NUM_PROCS) _ h.procs)
  rw [show [info.hostname, info.divider] = info.hostname :: info.divider :: [] from rfl]
  rw [info_put_if_lay _ _ _ (hle [] (by simp)) h.kernel (by simp), Option.some_bind]
  simp only [List.cons_append, List.nil_append]
  rw [info_put_if_lay _ _ _ (hle _ a1) h.cpu (by simp; omega), Option.some_bind]
  simp only [List.cons_append, List.nil_append]
  rw [info_put_if_lay _ _ _ (hle _ a2) h.cpus (by simp; omega), Option.some_bind]
  simp only [List.cons_append, List.nil_append]
  rw [info_put_if_lay _ _ _ (hle _ a3) h.mem (by simp; omega), Option.some_bind]
  simp only [List.cons_append, List.nil_append]
  rw [info_put_if_lay _ _ _ (hle _ a4) h.procs (by simp; omega), Option.some_bind]
  simp only [List.cons_append, List.nil_append]
  rw [info_put_if_lay _ _ _ (hle _ a5) h.uptime (by simp; omega)]
  simp only [List.cons_append, List.nil_append, optional_lines]

/-! ### The concatenation loop -/

theorem cstrAt_no_nul (mem : List Char) (off : Nat) (s : List Char)
    (h : cstrAt mem off = some s) : NUL ∉ s := by
  unfold cstrAt at h
  split at h
  · cases h; exact nul_not_mem_cstr _
  · cases h

theorem cstrAt_buf_of (text : List Char) (hn : NUL ∉ text) (hl : text.length < BUF_SIZE) :
    cstrAt (buf_of text) 0 = some text := by
  unfold cstrAt buf_of
  have e : BUF_SIZE - text.length = (BUF_SIZE - text.length - 1) + 1 := by omega
  rw [List.drop_zero, e, zeros_succ, cstr_append_nul _ _ hn, if_pos]
  simp [zeros_length]

theorem strcat_buf_of (text src : List Char) (hn : NUL ∉ text)
    (hl : text.length + src.length < BUF_SIZE) :
    strcat (buf_of text) src = some (buf_of (text ++ src)) := by
  unfold strcat
  rw [cstrAt_buf_of text hn (by omega), Option.some_bind]
  unfold buf_of
  rw [store_zero_tail _ _ _ (by simp; omega)]
  simp only [List.append_assoc, List.length_append, List.length_singleton]
  congr 3
  have e : BUF_SIZE - (text.length + src.length)
      = (BUF_SIZE - text.length - (src.length + 1)) + 1 := by omega
  rw [e, zeros_succ]; rfl

theorem concat_row_buf_of (logo_mem info_buf text : List Char) (L R : Nat → List Char)
    (i : Nat) (hL : cstrAt logo_mem (20 * i) = some (L i))
    (hR : cstrAt info_buf (64 * i) = some (R i)) (hn : NUL ∉ text)
    (hlen : text.length + (row_text L R i).length < BUF_SIZE) :
    concat_row logo_mem info_buf (buf_of text) i = some (buf_of (text ++ row_text L R i)) := by
  have hnl : NUL ∉ L i := cstrAt_no_nul _ _ _ hL
  have hnn : NUL ∉ ['\n'] := by decide
  unfold concat_row
  rw [hL, hR]
  have hne : ¬NUL = '\n' := by decide
  by_cases hi : i = 0
  · subst hi
    simp only [row_text, ne_eq, not_true_eq_false, if_false, List.nil_append,
      List.length_append, Option.some_bind] at hlen ⊢
    rw [strcat_buf_of _ _ hn (by omega), Option.some_bind,
      strcat_buf_of _ _ (by simp [hn, hnl]) (by simp; omega), List.append_assoc]
  · simp only [row_text, hi, ne_eq, not_false_eq_true, if_true, List.length_append,
      List.length_singleton, Option.some_bind] at hlen ⊢
    rw [strcat_buf_of _ _ hn (by simp; omega), Option.some_bind,
      strcat_buf_of _ _ (by simp [hn, hne]) (by simp; omega), Option.some_bind,
      strcat_buf_of _ _ (by simp [hn, hnl, hne]) (by simp; omega)]
    simp only [List.append_assoc]

theorem row_text_no_nul (logo_mem info_buf : List Char) (L R : Nat → List Char) (i : Nat)
    (hL : cstrAt logo_mem (20 * i) = some (L i))
    (hR : cstrAt info_buf (64 * i) = some (R i)) : NUL ∉ row_text L R i := by
  have hnl : NUL ∉ L i := cstrAt_no_nul _ _ _ hL
  have hnr : NUL ∉ R i := cstrAt_no_nul _ _ _ hR
  have hnn : NUL ∉ ['\n'] := by decide
  have hne : ¬NUL = '\n' := by decide
  unfold row_text
  split <;> simp [hnl, hnr, hne]

theorem concat_fold (logo_mem info_buf : List Char) (L R : Nat → List Char) (is : List Nat) :
    ∀ (text : List Char), NUL ∉ text →
    (∀ i ∈ is, cstrAt logo_mem (20 * i) = some (L i) ∧ cstrAt info_buf (64 * i) = some (R i)) →
    text.length + ((is.map (row_text L R)).flatten).length < BUF_SIZE →
    is.foldlM (concat_row logo_mem info_buf) (buf_of text)
      = some (buf_of (text ++ (is.map (row_text L R)).flatten)) := by
  induction is with
  | nil => intro text _ _ _; simp
  | cons i is ih =>
    intro text hn hrows hlen
    have hi := hrows i (List.mem_cons_self _ _)
    simp only [List.map_cons, List.flatten_cons, List.length_append] at hlen
    rw [List.foldlM_cons, concat_row_buf_of _ _ _ L R i hi.1 hi.2 hn (by omega)]
    simp only [Option.bind_eq_bind, Option.some_bind]
    rw [ih (text ++ row_text L R i)
      (by
        have := row_text_no_nul _ _ L R i hi.1 hi.2
        simp [hn, this])
      (fun j hj => hrows j (List.mem_cons_of_mem _ hj))
      (by simp only [List.length_append]; omega)]
    simp only [List.map_cons, List.flatten_cons, List.append_assoc]

/-! ### The logo -/

theorem strcpy_enum_rows (w : Nat) : ∀ (fs done : List (List Char)) (n : Nat),
    (∀ g ∈ done, g.length ≤ w) → (∀ f ∈ fs, f.length < w) → w * fs.length ≤ n →
    (fs.enumFrom done.length).foldlM (fun mem p => strcpy mem (w * p.1) p.2)
        (rows_mem w done ++ zeros n)
      = some (rows_mem w (done ++ fs) ++ zeros (n - w * fs.length)) := by
  intro fs
  induction fs with
  | nil => intro done n _ _ _; simp
  | cons f fs ih =>
    intro done n hdone hfs hn
    have hf := hfs f (List.mem_cons_self _ _)
    have e : w * (fs.length + 1) = w * fs.length + w := by ring
    rw [List.length_cons, e] at hn
    rw [List.enumFrom_cons, List.foldlM_cons,
      strcpy_rows w done f n hdone hf.le (by omega) (by omega)]
    simp only [Option.bind_eq_bind, Option.some_bind]
    have hl : done.length + 1 = (done ++ [f]).length := by simp
    rw [hl, ih (done ++ [f]) (n - w)
      (by
        intro g hg
        rcases List.mem_append.mp hg with hg | hg
        · exact hdone g hg
        · rw [List.mem_singleton.mp hg]; exact hf.le)
      (fun g hg => hfs g (List.mem_cons_of_mem _ hg)) (by omega)]
    rw [List.append_assoc, List.singleton_append, List.length_cons, e]
    congr 3
    omega

theorem logo_eq : logo = some (rows_mem 20 logo_lines) := by
  have e0 : List.replicate (8 * 20) NUL = rows_mem 20 [] ++ zeros 160 := rfl
  have h := strcpy_enum_rows 20 logo_lines [] 160 (by simp) (by decide) (by decide)
  unfold logo
  rw [e0, List.enum]
  rw [show (0 : Nat) = ([] : List (List Char)).length from rfl, h]
  have e1 : 160 - 20 * logo_lines.length = 0 := by decide
  rw [e1]
  simp [zeros]

theorem logo_row (i : Nat) (hi : i < 8) :
    cstrAt (rows_mem 20 logo_lines) (20 * i) = some (logo_lines.getD i []) := by
  have h := cstrAt_rows_mem 20 logo_lines i (by simpa [logo_lines] using hi) (by decide)
    (by decide) (by decide)
  rw [h]
  interval_cases i <;> rfl

/-! ### The collected information -/

theorem snprintf_length (out : List Char) : (snprintf 64 out).length < 64 := by
  simp only [snprintf, List.length_take]
  omega

theorem collect_fits (s : Snapshot) (h : (cstr s.nodename).length ≤ 64) :
    info_fits (collect s) := by
  constructor
  · exact h
  · show (List.replicate (cstr s.nodename).length '-').length ≤ 64
    rw [List.length_replicate]; exact h
  · exact snprintf_length _
  · exact snprintf_length _
  · exact snprintf_length _
  · exact snprintf_length _
  · exact snprintf_length _
  · exact snprintf_length _

theorem not_mem_snprintf (x : Char) (n : Nat) (out : List Char) (h : x ∉ out) :
    x ∉ snprintf n out := fun hx => h (List.mem_of_mem_take hx)

theorem not_mem_of_ge (x : Char) (hx : x.toNat < 32) (l : List Char)
    (hl : ∀ c ∈ l, 32 ≤ c.toNat) : x ∉ l := by
  intro h
  have := hl x h
  omega

theorem collect_absent (s : Snapshot) (x : Char) (hx : x.toNat < 32)
    (h1 : x ∉ cstr s.nodename) (h2 : x ∉ cstr s.release) (h3 : x ∉ cstr s.x86_model_id) :
    absent x (collect s) := by
  have hd : ∀ v, x ∉ fmt_d v := fun v => not_mem_of_ge x hx _ (fmt_d_ge v)
  have hlit : ∀ l : List Char, (∀ c ∈ l, 32 ≤ c.toNat) → x ∉ l :=
    fun l hl => not_mem_of_ge x hx l hl
  intro f hf
  simp only [List.mem_cons, List.mem_singleton, List.not_mem_nil, or_false] at hf
  rcases hf with rfl | rfl | rfl | rfl | rfl | rfl | rfl | rfl
  · exact h1
  · intro hm
    have e := List.eq_of_mem_replicate hm
    rw [e] at hx
    exact absurd hx (by decide)
  · apply not_mem_snprintf
    simp only [List.mem_append, not_or]
    exact ⟨hlit _ (by decide), h2⟩
  · apply not_mem_snprintf
    simp only [List.mem_append, not_or]
    exact ⟨hlit _ (by decide), h3⟩
  · apply not_mem_snprintf
    simp only [List.mem_append, not_or]
    exact ⟨⟨⟨hlit _ (by decide), hd _⟩, hlit _ (by decide)⟩, hd _⟩
  · apply not_mem_snprintf
    simp only [List.mem_append, not_or]
    exact ⟨⟨⟨⟨hlit _ (by decide), hd _⟩, hlit _ (by decide)⟩, hd _⟩, hlit _ (by decide)⟩
  · apply not_mem_snprintf
    simp only [List.mem_append, not_or]
    exact ⟨hlit _ (by decide), hd _⟩
  · apply not_mem_snprintf
    simp only [List.mem_append, not_or]
    exact ⟨⟨hlit _ (by decide), hd _⟩, hlit _ (by decide)⟩

theorem collect_no_nul (s : Snapshot) : absent NUL (collect s) :=
  collect_absent s NUL (by decide) (nul_not_mem_cstr _) (nul_not_mem_cstr _)
    (nul_not_mem_cstr _)

theorem optional_lines_absent (x : Char) (info : sys_info) (mask : Int) (h : absent x info) :
    ∀ f ∈ optional_lines info mask, x ∉ f := by
  intro f hf
  simp only [optional_lines, List.mem_append] at hf
  rcases hf with ((((hf | hf) | hf) | hf) | hf) | hf <;> rw [mem_sel _ _ _ hf] <;>
    exact h _ (by simp)

theorem all_rows_absent (x : Char) (info : sys_info) (mask : Int) (h : absent x info) :
    ∀ f ∈ all_rows info mask, x ∉ f := by
  intro f hf
  simp only [all_rows, List.mem_cons, List.mem_append] at hf
  rcases hf with rfl | rfl | hf | hf
  · exact h _ (by simp)
  · exact h _ (by simp)
  · exact optional_lines_absent x info mask h f hf
  · rw [List.eq_of_mem_replicate hf]; exact List.not_mem_nil _

theorem all_rows_tail (info : sys_info) (mask : Int) (h : info_fits info) :
    ∃ r2 r3 r4 r5 r6 r7 : List Char,
      optional_lines info mask ++ List.replicate (6 - (optional_lines info mask).length) []
        = [r2, r3, r4, r5, r6, r7] ∧
      r2.length < 64 ∧ r3.length < 64 ∧ r4.length < 64 ∧ r5.length < 64 ∧ r6.length < 64 ∧
      r7.length < 64 := by
  have hl := optional_lines_length info mask
  have hlt : ∀ f ∈ optional_lines info mask
      ++ List.replicate (6 - (optional_lines info mask).length) [], f.length < 64 := by
    intro f hf
    rcases List.mem_append.mp hf with hf | hf
    · exact optional_lines_lt info mask h f hf
    · rw [List.eq_of_mem_replicate hf]; decide
  have hlen : (optional_lines info mask
      ++ List.replicate (6 - (optional_lines info mask).length) []).length = 6 := by
    simp only [List.length_append, List.length_replicate]; omega
  generalize optional_lines info mask
      ++ List.replicate (6 - (optional_lines info mask).length) [] = l at hlt hlen
  obtain ⟨r2, l, rfl⟩ := List.exists_of_length_succ l hlen
  obtain ⟨r3, l, rfl⟩ := List.exists_of_length_succ l (by simpa using hlen)
  obtain ⟨r4, l, rfl⟩ := List.exists_of_length_succ l (by simpa using hlen)
  obtain ⟨r5, l, rfl⟩ := List.exists_of_length_succ l (by simpa using hlen)
  obtain ⟨r6, l, rfl⟩ := List.exists_of_length_succ l (by simpa using hlen)
  obtain ⟨r7, l, rfl⟩ := List.exists_of_length_succ l (by simpa using hlen)
  have : l = [] := List.length_eq_zero.mp (by simpa using hlen)
  subst this
  exact ⟨r2, r3, r4, r5, r6, r7, rfl, hlt _ (by simp), hlt _ (by simp), hlt _ (by simp),
    hlt _ (by simp), hlt _ (by simp), hlt _ (by simp)⟩

theorem lay_eq_rows (info : sys_info) (mask : Int) :
    lay (info.hostname :: info.divider :: optional_lines info mask)
      = rows_mem 64 (all_rows info mask) := by
  have hl := optional_lines_length info mask
  unfold lay all_rows
  rw [show info.hostname :: info.divider :: (optional_lines info mask
      ++ List.replicate (6 - (optional_lines info mask).length) [])
      = (info.hostname :: info.divider :: optional_lines info mask)
        ++ List.replicate (6 - (optional_lines info mask).length) [] from rfl,
    rows_mem_append, rows_mem_replicate_nil]
  have e : 512 - 64 * (info.hostname :: info.divider :: optional_lines info mask).length
      = 64 * (6 - (optional_lines info mask).length) := by
    simp only [List.length_cons]
    omega
  rw [e]

theorem mapM_some {α β : Type} (f : α → Option β) (g : α → β) (l : List α)
    (h : ∀ x ∈ l, f x = some (g x)) : l.mapM f = some (l.map g) := by
  induction l with
  | nil => rfl
  | cons a l ih =>
    rw [List.mapM_cons, h a (List.mem_cons_self _ _),
      ih (fun x hx => h x (List.mem_cons_of_mem _ hx))]
    rfl

theorem all_rows_read (info : sys_info) (mask : Int) (h : info_fits info)
    (hn : absent NUL info) (i : Nat) (hi : i < 8) :
    cstrAt (rows_mem 64 (all_rows info mask)) (64 * i)
      = some (read_run 64 ((all_rows info mask).drop i)) := by
  obtain ⟨r2, r3, r4, r5, r6, r7, e, h2, h3, h4, h5, h6, h7⟩ := all_rows_tail info mask h
  have hnul := all_rows_absent NUL info mask hn
  have hh := h.hostname
  have hd := h.divider
  unfold all_rows at hnul ⊢
  rw [e] at hnul ⊢
  apply cstrAt_rows_mem 64 _ i (by simpa using hi) _ hnul
  · intro f hf
    simp only [List.getLast?_cons_cons, List.getLast?_singleton, Option.some.injEq] at hf
    rw [← hf]; exact h7
  · intro f hf
    simp only [List.mem_cons, List.mem_singleton, List.not_mem_nil, or_false] at hf
    rcases hf with rfl | rfl | rfl | rfl | rfl | rfl | rfl | rfl <;> omega

theorem info_rows_eq (s : Snapshot) (mask : Int) (h : (cstr s.nodename).length ≤ 64) :
    info_rows s mask = some (run_rows (collect s) mask) := by
  unfold info_rows run_rows
  rw [fill_info_buf_eq _ _ (collect_fits s h), Option.some_bind, lay_eq_rows]
  apply mapM_some
  intro i hi
  exact all_rows_read _ _ (collect_fits s h) (collect_no_nul s) i (List.mem_range.mp hi)

/-! ### The text of the report -/

theorem range_eight : List.range 8 = [0, 1, 2, 3, 4, 5, 6, 7] := rfl

theorem report_text_eq (r0 r1 r2 r3 r4 r5 r6 r7 : List Char) :
    report_text [r0, r1, r2, r3, r4, r5, r6, r7]
      = List.intercalate ['\n'] (List.zipWith (fun l r => l ++ r) logo_lines
          [r0, r1, r2, r3, r4, r5, r6, r7]) := by
  simp [report_text, row_text, range_eight, logo_lines, List.intercalate, List.intersperse]

theorem logo_line_length (i : Nat) (hi : i < 8) : (logo_lines.getD i []).length = 19 := by
  interval_cases i <;> rfl

theorem logo_line_count (i : Nat) (hi : i < 8) : (logo_lines.getD i []).count '\n' = 0 := by
  interval_cases i <;> decide

theorem report_text_length (r0 r1 r2 r3 r4 r5 r6 r7 : List Char) :
    (report_text [r0, r1, r2, r3, r4, r5, r6, r7]).length
      = 159 + (r0.length + r1.length + r2.length + r3.length + r4.length + r5.length
          + r6.length + r7.length) := by
  simp only [report_text, row_text, range_eight, List.map_cons, List.map_nil,
    List.flatten_cons, List.flatten_nil, List.length_append, List.length_nil,
    List.getD_cons_zero, List.getD_cons_succ, ne_eq, not_true_eq_false, if_false,
    OfNat.ofNat_ne_zero, one_ne_zero, not_false_eq_true, if_true, List.length_singleton,
    logo_line_length _ (by decide : 0 < 8), logo_line_length _ (by decide : 1 < 8),
    logo_line_length _ (by decide : 2 < 8), logo_line_length _ (by decide : 3 < 8),
    logo_line_length _ (by decide : 4 < 8), logo_line_length _ (by decide : 5 < 8),
    logo_line_length _ (by decide : 6 < 8), logo_line_length _ (by decide : 7 < 8)]
  omega

theorem report_text_count (r0 r1 r2 r3 r4 r5 r6 r7 : List Char) :
    (report_text [r0, r1, r2, r3, r4, r5, r6, r7]).count '\n'
      = 7 + (r0.count '\n' + r1.count '\n' + r2.count '\n' + r3.count '\n' + r4.count '\n'
          + r5.count '\n' + r6.count '\n' + r7.count '\n') := by
  have h1 : List.count '\n' ['\n'] = 1 := by decide
  simp only [report_text, row_text, range_eight, List.map_cons, List.map_nil,
    List.flatten_cons, List.flatten_nil, List.count_append, List.count_nil,
    List.getD_cons_zero, List.getD_cons_succ, ne_eq, not_true_eq_false, if_false,
    OfNat.ofNat_ne_zero, one_ne_zero, not_false_eq_true, if_true, h1,
    logo_line_count _ (by decide : 0 < 8), logo_line_count _ (by decide : 1 < 8),
    logo_line_count _ (by decide : 2 < 8), logo_line_count _ (by decide : 3 < 8),
    logo_line_count _ (by decide : 4 < 8), logo_line_count _ (by decide : 5 < 8),
    logo_line_count _ (by decide : 6 < 8), logo_line_count _ (by decide : 7 < 8)]
  omega

theorem run_rows_explicit (info : sys_info) (mask : Int) (h : info_fits info) :
    ∃ r2 r3 r4 r5 r6 r7 : List Char,
      optional_lines info mask ++ List.replicate (6 - (optional_lines info mask).length) []
        = [r2, r3, r4, r5, r6, r7] ∧
      (r2.length < 64 ∧ r3.length < 64 ∧ r4.length < 64 ∧ r5.length < 64 ∧ r6.length < 64 ∧
        r7.length < 64) ∧
      run_rows info mask
        = [ (if info.hostname.length < 64 then info.hostname
              else info.hostname ++ (if info.divider.length < 64 then info.divider
                else info.divider ++ r2)),
            (if info.divider.length < 64 then info.divider else info.divider ++ r2),
            r2, r3, r4, r5, r6, r7 ] := by
  obtain ⟨r2, r3, r4, r5, r6, r7, e, h2, h3, h4, h5, h6, h7⟩ := all_rows_tail info mask h
  refine ⟨r2, r3, r4, r5, r6, r7, e, ⟨h2, h3, h4, h5, h6, h7⟩, ?_⟩
  unfold run_rows all_rows
  rw [e, range_eight]
  simp only [List.map_cons, List.map_nil, List.drop_zero, List.drop_succ_cons, read_run,
    if_pos h2, if_pos h3, if_pos h4, if_pos h5, if_pos h6, if_pos h7]

theorem run_rows_getD (info : sys_info) (mask : Int) (i : Nat) (hi : i < 8) :
    (run_rows info mask).getD i [] = read_run 64 ((all_rows info mask).drop i) := by
  unfold run_rows
  rw [range_eight]
  interval_cases i <;> rfl

theorem report_text_run_rows_length (info : sys_info) (mask : Int) (h : info_fits info) :
    (report_text (run_rows info mask)).length ≤ 855 := by
  obtain ⟨r2, r3, r4, r5, r6, r7, _, ⟨h2, h3, h4, h5, h6, h7⟩, e⟩ :=
    run_rows_explicit info mask h
  have hh := h.hostname
  have hd := h.divider
  rw [e, report_text_length]
  split_ifs <;> (try simp only [List.length_append]) <;> omega

theorem render_eq (s : Snapshot) (mask : Int) (h : (cstr s.nodename).length ≤ 64) :
    render s mask = some (buf_of (report_text (run_rows (collect s) mask))) := by
  have hfit := collect_fits s h
  have hlen := report_text_run_rows_length (collect s) mask hfit
  unfold render
  rw [logo_eq, Option.some_bind, fill_info_buf_eq _ _ hfit, Option.some_bind, lay_eq_rows]
  unfold concat_output
  have e0 : List.replicate BUF_SIZE NUL = buf_of [] := rfl
  rw [e0, concat_fold _ _ (fun i => logo_lines.getD i [])
    (fun i => (run_rows (collect s) mask).getD i []) (List.range 8) [] (List.not_mem_nil _)]
  · rw [List.nil_append]; rfl
  · intro i hi
    have hi8 := List.mem_range.mp hi
    refine ⟨logo_row i hi8, ?_⟩
    rw [run_rows_getD _ _ i hi8]
    exact all_rows_read _ _ hfit (collect_no_nul s) i hi8
  · have : (report_text (run_rows (collect s) mask)).length < BUF_SIZE := by
      have : BUF_SIZE = 1024 := rfl
      omega
    simpa [report_text] using this

theorem mem_read_run (w : Nat) (x : Char) (rows : List (List Char))
    (h : x ∈ read_run w rows) : ∃ f ∈ rows, x ∈ f := by
  induction rows with
  | nil => exact absurd h (List.not_mem_nil _)
  | cons f fs ih =>
    rw [read_run] at h
    split at h
    · exact ⟨f, List.mem_cons_self _ _, h⟩
    · rcases List.mem_append.mp h with h | h
      · exact ⟨f, List.mem_cons_self _ _, h⟩
      · obtain ⟨g, hg, hx⟩ := ih h
        exact ⟨g, List.mem_cons_of_mem _ hg, hx⟩

theorem run_rows_absent (x : Char) (info : sys_info) (mask : Int) (h : absent x info)
    (i : Nat) (hi : i < 8) : x ∉ (run_rows info mask).getD i [] := by
  rw [run_rows_getD info mask i hi]
  intro hx
  obtain ⟨f, hf, hxf⟩ := mem_read_run 64 x _ hx
  exact all_rows_absent x info mask h f (List.mem_of_mem_drop hf) hxf

theorem mem_report_text (x : Char) (rows : List (List Char)) (h : x ∈ report_text rows) :
    x = '\n' ∨ (∃ i, i < 8 ∧ x ∈ logo_lines.getD i []) ∨ ∃ i, i < 8 ∧ x ∈ rows.getD i [] := by
  unfold report_text at h
  obtain ⟨l, hl, hx⟩ := List.mem_flatten.mp h
  obtain ⟨i, hi, rfl⟩ := List.mem_map.mp hl
  have hi8 := List.mem_range.mp hi
  unfold row_text at hx
  rcases List.mem_append.mp hx with hx | hx
  · rcases List.mem_append.mp hx with hx | hx
    · split at hx
      · exact Or.inl (List.mem_singleton.mp hx)
      · exact absurd hx (List.not_mem_nil _)
    · exact Or.inr (Or.inl ⟨i, hi8, hx⟩)
  · exact Or.inr (Or.inr ⟨i, hi8, hx⟩)

theorem report_text_no_nul (info : sys_info) (mask : Int)
    (hn : absent NUL info) : NUL ∉ report_text (run_rows info mask) := by
  intro h
  rcases mem_report_text _ _ h with h | ⟨i, hi, h⟩ | ⟨i, hi, h⟩
  · exact absurd h (by decide)
  · revert h
    interval_cases i <;> decide
  · exact run_rows_absent NUL info mask hn i hi h

theorem report_eq (s : Snapshot) (mask : Int) (h : (cstr s.nodename).length ≤ 64) :
    report s mask = some (report_text (run_rows (collect s) mask)) := by
  have hfit := collect_fits s h
  have hlen := report_text_run_rows_length (collect s) mask hfit
  unfold report
  rw [render_eq s mask h, Option.some_bind]
  exact cstrAt_buf_of _ (report_text_no_nul _ _ (collect_no_nul s))
    (by have : BUF_SIZE = 1024 := rfl; omega)

/-! ### Open and release -/

theorem step_inv (σ τ : Sys) (e : Event) (h : gate_inv σ) (hs : step σ e = some τ) :
    gate_inv τ := by
  obtain ⟨h1, h2, h3⟩ := h
  cases e with
  | try_open c =>
    simp only [step, Option.some.injEq] at hs
    subst hs
    rcases h3 with h0 | h0
    · have hnil : σ.holders = [] := by
        by_contra hne
        have := h2.mpr hne
        rw [h0] at this
        exact absurd this (by decide)
      simp [gate_inv, kfetch_open, atomic_cmpxchg, h0, hnil, DEV_NOT_USED,
        DEV_EXCLUSIVE_OPEN]
    · have hne : σ.holders ≠ [] := h2.mp h0
      simp [gate_inv, kfetch_open, atomic_cmpxchg, h0, DEV_NOT_USED, DEV_EXCLUSIVE_OPEN,
        EBUSY, h1, hne]
  | close c =>
    simp only [step] at hs
    split at hs
    · rename_i hc
      simp only [Option.some.injEq] at hs
      subst hs
      have hl : (σ.holders.erase c).length = σ.holders.length - 1 := by
        rw [List.length_erase_of_mem hc]
      have hnil : σ.holders.erase c = [] := List.length_eq_zero.mp (by omega)
      simp [gate_inv, kfetch_release, hnil, DEV_NOT_USED, DEV_EXCLUSIVE_OPEN]
    · cases hs

theorem run_inv (evs : List Event) : ∀ (σ τ : Sys), gate_inv σ → run σ evs = some τ →
    gate_inv τ := by
  induction evs with
  | nil =>
    intro σ τ h hr
    simp only [run, List.foldlM_nil] at hr
    cases hr
    exact h
  | cons e evs ih =>
    intro σ τ h hr
    simp only [run, List.foldlM_cons] at hr
    cases hstep : step σ e with
    | none => rw [hstep] at hr; cases hr
    | some σ1 =>
      rw [hstep] at hr
      exact ih σ1 τ (step_inv σ σ1 e h hstep) hr

/-- C4: from the closed state `kfetch_open` returns 0 and sets the flag; a second
`kfetch_open` returns `-EBUSY` and changes nothing; after `kfetch_release` the flag is clear
and `kfetch_open` returns 0 again; `kfetch_release` clears the flag from every state. -/
theorem access_gate_sequence (m r : Int) :
    (kfetch_open ⟨m, DEV_NOT_USED, r⟩).1 = 0 ∧
    (kfetch_open ⟨m, DEV_NOT_USED, r⟩).2.device_opened = DEV_EXCLUSIVE_OPEN ∧
    (kfetch_open (kfetch_open ⟨m, DEV_NOT_USED, r⟩).2).1 = -EBUSY ∧
    (kfetch_open (kfetch_open ⟨m, DEV_NOT_USED, r⟩).2).2 = (kfetch_open ⟨m, DEV_NOT_USED, r⟩).2 ∧
    (kfetch_release (kfetch_open ⟨m, DEV_NOT_USED, r⟩).2).2.device_opened = DEV_NOT_USED ∧
    (kfetch_open (kfetch_release (kfetch_open ⟨m, DEV_NOT_USED, r⟩).2).2).1 = 0 ∧
    (kfetch_open (kfetch_release (kfetch_open ⟨m, DEV_NOT_USED, r⟩).2).2).2.device_opened
      = DEV_EXCLUSIVE_OPEN ∧
    ∀ d : Dev, (kfetch_release d).1 = 0 ∧ (kfetch_release d).2.device_opened = DEV_NOT_USED := by
  simp [kfetch_open, kfetch_release, atomic_cmpxchg, DEV_NOT_USED, DEV_EXCLUSIVE_OPEN, EBUSY]

/-- C5: in every state reached from module load by open attempts of arbitrary callers and
releases by a caller that holds the device, at most one caller holds the device, and the
flag `device_opened` is `DEV_EXCLUSIVE_OPEN` exactly when a caller holds it. -/
theorem single_opener (evs : List Event) (σ : Sys) (h : run Sys.init evs = some σ) :
    σ.holders.length ≤ 1 ∧ (σ.dev.device_opened = DEV_EXCLUSIVE_OPEN ↔ σ.holders ≠ []) := by
  have hinit : gate_inv Sys.init := by
    simp [gate_inv, Sys.init, Dev.init, DEV_NOT_USED, DEV_EXCLUSIVE_OPEN]
  have := run_inv evs Sys.init σ hinit h
  exact ⟨this.1, this.2.1⟩

theorem single_opener_witness :
    run Sys.init [Event.try_open 1, Event.try_open 2, Event.close 1, Event.try_open 2]
      = some { dev := { info_mask := -1, device_opened := 1, refcnt := 1 }, holders := [2] } ∧
    ([2] : List Nat).length ≤ 1 ∧ ((1 : Int) = DEV_EXCLUSIVE_OPEN ↔ ([2] : List Nat) ≠ []) :=
  ⟨by decide, single_opener
    [Event.try_open 1, Event.try_open 2, Event.close 1, Event.try_open 2]
    { dev := { info_mask := -1, device_opened := 1, refcnt := 1 }, holders := [2] }
    (by decide)⟩

/-! ### Write -/

theorem int_bytes_length (v : Int) : (int_bytes v).length = 4 := rfl

theorem int_bytes_lt (v : Int) : ∀ b ∈ int_bytes v, b < 256 := by
  intro b hb
  simp only [int_bytes, List.mem_cons, List.mem_singleton, List.not_mem_nil, or_false] at hb
  rcases hb with rfl | rfl | rfl | rfl <;> omega

theorem int_bytes_bytes_int (l : List Nat) (hl : l.length = 4) (hb : ∀ b ∈ l, b < 256) :
    int_bytes (bytes_int l) = l := by
  obtain ⟨b0, l, rfl⟩ := List.exists_of_length_succ l hl
  obtain ⟨b1, l, rfl⟩ := List.exists_of_length_succ l (by simpa using hl)
  obtain ⟨b2, l, rfl⟩ := List.exists_of_length_succ l (by simpa using hl)
  obtain ⟨b3, l, rfl⟩ := List.exists_of_length_succ l (by simpa using hl)
  have : l = [] := List.length_eq_zero.mp (by simpa using hl)
  subst this
  have h0 := hb b0 (by simp)
  have h1 := hb b1 (by simp)
  have h2 := hb b2 (by simp)
  have h3 := hb b3 (by simp)
  have hu : ((sint 32 (le_value [b0, b1, b2, b3]) % 2 ^ 32).toNat)
      = b0 + 256 * (b1 + 256 * (b2 + 256 * b3)) := by
    simp only [sint, le_value, Nat.mod_eq_of_lt h0, Nat.mod_eq_of_lt h1, Nat.mod_eq_of_lt h2,
      Nat.mod_eq_of_lt h3]
    norm_num
    omega
  simp only [int_bytes, bytes_int, hu]
  refine congrArg₂ _ ?_ (congrArg₂ _ ?_ (congrArg₂ _ ?_ (congrArg₂ _ ?_ rfl))) <;> omega

/-- C6, at the failing input: a write of five bytes asks `copy_from_user` to store five
bytes into the four-byte object `info_mask`; the copy is not confined to the mask and the
call has no defined result. -/
theorem kfetch_write_five_bytes : kfetch_write Dev.init [1, 0, 0, 0, 0] 5 = none := by
  decide

theorem kfetch_write_four (d : Dev) (b0 b1 b2 b3 : Nat) (rest : List Nat) :
    kfetch_write d (b0 :: b1 :: b2 :: b3 :: rest) 4
      = some (0, { d with info_mask := bytes_int [b0, b1, b2, b3] }) := by
  simp [kfetch_write, copy_from_user, int_bytes, bytes_int, le_value]

/-- C7, counterexample: a write of four bytes that faults after two bytes were transferred
returns -1 and leaves the mask 513, not the mask -1 it had before the call. -/
theorem failed_write_changes_mask :
    kfetch_write Dev.init [1, 2] 4
      = some (-1, { info_mask := 513, device_opened := DEV_NOT_USED, refcnt := 0 }) ∧
    (513 : Int) ≠ Dev.init.info_mask := by
  decide

theorem copied_bytes_ok (old user : List Nat) (n k : Nat) (hold : old.length = 4)
    (hn : n ≤ 4) (hk : k ≤ n) (hku : k ≤ user.length) (hb : ∀ b ∈ old, b < 256) :
    ((user.take k).map (fun b => b % 256) ++ List.replicate (n - k) 0 ++ old.drop n).length = 4
    ∧ ∀ b ∈ (user.take k).map (fun b => b % 256) ++ List.replicate (n - k) 0 ++ old.drop n,
      b < 256 := by
  constructor
  · simp only [List.length_append, List.length_map, List.length_take,
      List.length_replicate, List.length_drop, hold]
    omega
  · intro b hb'
    rcases List.mem_append.mp hb' with hb' | hb'
    · rcases List.mem_append.mp hb' with hb' | hb'
      · obtain ⟨a, _, rfl⟩ := List.mem_map.mp hb'
        exact Nat.mod_lt _ (by decide)
      · rw [List.eq_of_mem_replicate hb']; decide
    · exact hb b (List.mem_of_mem_drop hb')

/-! ### Read -/

theorem host64_fits : (cstr host64.nodename).length ≤ 64 := by decide

theorem run_rows_eight (info : sys_info) (mask : Int) :
    ∃ a0 a1 a2 a3 a4 a5 a6 a7 : List Char,
      run_rows info mask = [a0, a1, a2, a3, a4, a5, a6, a7] :=
  ⟨_, _, _, _, _, _, _, _, rfl⟩

/-- C1: for every snapshot whose host name fits the `nodename` field and whose strings
contain no newline, and for every mask, `kfetch_read` assembles a report, and the report
contains exactly 7 newline characters, that is 8 lines. -/
theorem report_eight_lines (s : Snapshot) (mask : Int)
    (hfit : (cstr s.nodename).length ≤ 64) (h1 : '\n' ∉ cstr s.nodename)
    (h2 : '\n' ∉ cstr s.release) (h3 : '\n' ∉ cstr s.x86_model_id) :
    ∃ r, report s mask = some r ∧ r.count '\n' = 7 := by
  refine ⟨_, report_eq s mask hfit, ?_⟩
  have habs := collect_absent s '\n' (by decide) h1 h2 h3
  have hc : ∀ i, i < 8 → ((run_rows (collect s) mask).getD i []).count '\n' = 0 :=
    fun i hi => List.count_eq_zero.mpr (run_rows_absent '\n' _ mask habs i hi)
  have c0 := hc 0 (by decide)
  have c1 := hc 1 (by decide)
  have c2 := hc 2 (by decide)
  have c3 := hc 3 (by decide)
  have c4 := hc 4 (by decide)
  have c5 := hc 5 (by decide)
  have c6 := hc 6 (by decide)
  have c7 := hc 7 (by decide)
  obtain ⟨a0, a1, a2, a3, a4, a5, a6, a7, e⟩ := run_rows_eight (collect s) mask
  rw [e] at c0 c1 c2 c3 c4 c5 c6 c7 ⊢
  simp only [List.getD_cons_zero, List.getD_cons_succ] at c0 c1 c2 c3 c4 c5 c6 c7
  rw [report_text_count]
  omega

theorem report_eight_lines_witness :
    ∃ r, report sample (-1) = some r ∧ r.count '\n' = 7 :=
  report_eight_lines sample (-1) (by decide) (by decide) (by decide) (by decide)

theorem info_rows_short (s : Snapshot) (mask : Int) (h : (cstr s.nodename).length < 64) :
    info_rows s mask = some (all_rows (collect s) mask) := by
  have hfit := collect_fits s h.le
  rw [info_rows_eq s mask h.le]
  obtain ⟨r2, r3, r4, r5, r6, r7, e, _, e2⟩ := run_rows_explicit (collect s) mask hfit
  have hh : (collect s).hostname.length < 64 := h
  have hd : (collect s).divider.length < 64 := by
    show (List.replicate (cstr s.nodename).length '-').length < 64
    rw [List.length_replicate]; exact h
  rw [e2, if_pos hh, if_pos hd]
  unfold all_rows
  rw [e]

set_option maxRecDepth 1000000 in
/-- C2, at the failing input: with a host name of 64 characters and the mask 1 the strings
read from rows 0 and 1 of `info_buf` are not the host name and the divider: row 0 runs on
through the divider and the kernel line, row 1 through the kernel line. -/
theorem info_rows_host64_run_on :
    info_rows host64 1
      = some [ List.replicate 64 'a' ++ List.replicate 64 '-' ++ "Kernel:   5.19.12".toList,
          List.replicate 64 '-' ++ "Kernel:   5.19.12".toList,
          "Kernel:   5.19.12".toList, [], [], [], [], [] ] := by
  decide

set_option maxRecDepth 1000000 in
/-- C10, at the failing input: with a host name of 64 characters and the mask 0 the string
read from row 0 of `info_buf` has 128 characters and the one read from row 1 has 64; neither
fits a slot of 63 characters and a terminator. -/
theorem info_rows_host64_lengths :
    (info_rows host64 0).map (List.map List.length) = some [128, 64, 0, 0, 0, 0, 0, 0] := by
  decide

theorem info_rows_fit_slot (s : Snapshot) (mask : Int) (h : (cstr s.nodename).length < 64) :
    ∃ rows, info_rows s mask = some rows ∧ ∀ f ∈ rows, f.length < 64 := by
  have hfit := collect_fits s h.le
  refine ⟨_, info_rows_short s mask h, ?_⟩
  obtain ⟨r2, r3, r4, r5, r6, r7, e, h2, h3, h4, h5, h6, h7⟩ :=
    all_rows_tail (collect s) mask hfit
  have hd : (collect s).divider.length < 64 := by
    show (List.replicate (cstr s.nodename).length '-').length < 64
    rw [List.length_replicate]; exact h
  have hh : (collect s).hostname.length < 64 := h
  unfold all_rows
  rw [e]
  intro f hf
  simp only [List.mem_cons, List.mem_singleton, List.not_mem_nil, or_false] at hf
  rcases hf with rfl | rfl | rfl | rfl | rfl | rfl | rfl | rfl <;> assumption

/-- C9: for every snapshot whose host name has at most 64 characters, however long
the kernel release and the CPU model strings are, and for every mask, the report is
produced and, with its terminator, fits the 1024 bytes of the report buffer: it has at most
855 characters. -/
theorem report_within_cap (s : Snapshot) (mask : Int)
    (hfit : (cstr s.nodename).length ≤ 64) :
    ∃ r, report s mask = some r ∧ r.length ≤ 855 ∧ r.length + 1 ≤ BUF_SIZE := by
  refine ⟨_, report_eq s mask hfit, ?_⟩
  have := report_text_run_rows_length (collect s) mask (collect_fits s hfit)
  have hb : BUF_SIZE = 1024 := rfl
  omega

theorem report_within_cap_witness :
    ∃ r, report host64 (-1) = some r ∧ r.length ≤ 855 ∧ r.length + 1 ≤ BUF_SIZE :=
  report_within_cap host64 (-1) host64_fits

theorem filled_append (a b : List (List Char)) : filled (a ++ b) = filled a + filled b := by
  simp [filled, List.countP_append]

theorem filled_replicate_nil (n : Nat) : filled (List.replicate n []) = 0 := by
  unfold filled
  rw [List.countP_eq_zero]
  intro f hf
  rw [List.eq_of_mem_replicate hf]
  decide

theorem filled_of_ne_nil (l : List (List Char)) (h : ∀ f ∈ l, f ≠ []) : filled l = l.length := by
  unfold filled
  rw [List.countP_eq_length]
  intro f hf
  have := h f hf
  cases f with
  | nil => exact absurd rfl this
  | cons c cs => rfl

theorem snprintf_ne_nil (a b : List Char) (ha : a ≠ []) : snprintf 64 (a ++ b) ≠ [] := by
  cases a with
  | nil => exact absurd rfl ha
  | cons c cs => simp [snprintf]

theorem optional_lines_ne_nil (s : Snapshot) (mask : Int) :
    ∀ f ∈ optional_lines (collect s) mask, f ≠ [] := by
  intro f hf
  simp only [optional_lines, List.mem_append] at hf
  rcases hf with ((((hf | hf) | hf) | hf) | hf) | hf <;> rw [mem_sel _ _ _ hf]
  · exact snprintf_ne_nil _ _ (by decide)
  · exact snprintf_ne_nil _ _ (by decide)
  · show snprintf 64 (_ ++ _ ++ _ ++ _) ≠ []
    simp only [List.append_assoc]
    exact snprintf_ne_nil _ _ (by decide)
  · show snprintf 64 (_ ++ _ ++ _ ++ _ ++ _) ≠ []
    simp only [List.append_assoc]
    exact snprintf_ne_nil _ _ (by decide)
  · exact snprintf_ne_nil _ _ (by decide)
  · show snprintf 64 (_ ++ _ ++ _) ≠ []
    simp only [List.append_assoc]
    exact snprintf_ne_nil _ _ (by decide)

theorem sel_length (c : Bool) (x : List Char) : (sel c x).length = if c then 1 else 0 := by
  cases c <;> rfl

theorem optional_lines_count (info : sys_info) (mask : Int) :
    (optional_lines info mask).length = flag_count mask := by
  simp only [optional_lines, List.length_append, sel_length, flag_count, List.filter_cons,
    List.filter_nil]
  split_ifs <;> rfl

theorem filled_cons_ne_nil (a : List Char) (l : List (List Char)) (h : a ≠ []) :
    filled (a :: l) = 1 + filled l := by
  cases a with
  | nil => exact absurd rfl h
  | cons c cs => simp [filled, List.countP_cons, Nat.add_comm]

set_option maxRecDepth 1000000 in
/-- C3, counterexample: with an empty host name and the mask 0 no row of the report has a
non-empty info fragment, while 2 plus the number of set flags is 2. -/
theorem empty_hostname_rows :
    (info_rows no_host 0).map filled = some 0 ∧
    (info_rows no_host 0).map filled ≠ some (2 + flag_count 0) := by
  decide

/-- C3, amended: for every snapshot whose host name is not empty and fits the `nodename`
field, and for every mask, the number of rows whose info fragment is non-empty is 2 plus the
number of the six flags that are set in the mask. -/
theorem filled_rows (s : Snapshot) (mask : Int) (hne : cstr s.nodename ≠ [])
    (hfit : (cstr s.nodename).length ≤ 64) :
    (info_rows s mask).map filled = some (2 + flag_count mask) := by
  have hf := collect_fits s hfit
  obtain ⟨r2, r3, r4, r5, r6, r7, e, _, e2⟩ := run_rows_explicit (collect s) mask hf
  have hh : (collect s).hostname ≠ [] := hne
  have hd : (collect s).divider ≠ [] := by
    show List.replicate (cstr s.nodename).length '-' ≠ []
    intro h0
    have h1 := congrArg List.length h0
    rw [List.length_replicate] at h1
    exact hne (List.length_eq_zero.mp h1)
  have h1 : (if (collect s).divider.length < 64 then (collect s).divider
      else (collect s).divider ++ r2) ≠ [] := by
    split
    · exact hd
    · exact List.append_ne_nil_of_left_ne_nil hd _
  have h0 : (if (collect s).hostname.length < 64 then (collect s).hostname
      else (collect s).hostname ++ (if (collect s).divider.length < 64 then (collect s).divider
        else (collect s).divider ++ r2)) ≠ [] := by
    split
    · exact hh
    · exact List.append_ne_nil_of_left_ne_nil hh _
  have htail : filled [r2, r3, r4, r5, r6, r7] = flag_count mask := by
    rw [← e, filled_append, filled_replicate_nil,
      filled_of_ne_nil _ (optional_lines_ne_nil s mask), optional_lines_count]
    rfl
  rw [info_rows_eq s mask hfit, Option.map_some', e2, filled_cons_ne_nil _ _ h0,
    filled_cons_ne_nil _ _ h1, htail]
  congr 1
  omega

theorem filled_rows_witness :
    (info_rows sample 5).map filled = some (2 + flag_count 5) :=
  filled_rows sample 5 (by decide) (by decide)

theorem take_buf_of (text : List Char) (k : Nat) (h : k ≤ text.length) :
    (buf_of text).take k = text.take k := by
  unfold buf_of
  exact List.take_append_of_le_length h

theorem kfetch_read_eq (d : Dev) (s : Snapshot) (ucap n : Nat) (offset : Int)
    (hfit : (cstr s.nodename).length ≤ 64) (text : List Char)
    (htext : text = report_text (run_rows (collect s) d.info_mask)) :
    kfetch_read d s ucap n offset
      = some (if (copy_to_user ucap (buf_of text)
            (if n > text.length then text.length else n)).1 ≠ 0 then
          { ret := -1
            delivered := (copy_to_user ucap (buf_of text)
              (if n > text.length then text.length else n)).2
            dev := d, offset := offset }
        else
          { ret := ((if n > text.length then text.length else n : Nat) : Int)
            delivered := (copy_to_user ucap (buf_of text)
              (if n > text.length then text.length else n)).2
            dev := d, offset := offset }) := by
  have hr := render_eq s d.info_mask hfit
  have hq := report_eq s d.info_mask hfit
  unfold report at hq
  rw [hr, Option.some_bind] at hq
  rw [← htext] at hr hq
  unfold kfetch_read
  rw [hr, Option.some_bind, hq, Option.map_some']

/-- C8: for every requested length `n`, every snapshot whose host name fits the `nodename`
field and every mask, `kfetch_read` returns; when the transfer to the caller succeeds it
returns `min n size` for the size of the full report and delivers exactly the first
`min n size` bytes of the report, never more than `n`; the transfer fails exactly when the
caller's buffer cannot take that many bytes. -/
theorem read_truncates (d : Dev) (s : Snapshot) (ucap n : Nat) (offset : Int)
    (hfit : (cstr s.nodename).length ≤ 64) :
    ∃ text r, report s d.info_mask = some text ∧ kfetch_read d s ucap n offset = some r ∧
      (min n text.length ≤ ucap →
        r.ret = ((min n text.length : Nat) : Int) ∧
        r.delivered = text.take (min n text.length) ∧
        r.delivered.length = min n text.length ∧ r.delivered.length ≤ n) ∧
      (ucap < min n text.length → r.ret = -1) := by
  refine ⟨_, _, report_eq s d.info_mask hfit, kfetch_read_eq d s ucap n offset hfit _ rfl, ?_, ?_⟩
  · intro hcap
    generalize report_text (run_rows (collect s) d.info_mask) = text at hcap ⊢
    have hk : (if n > text.length then text.length else n) = min n text.length := by
      split <;> omega
    rw [hk]
    have hm : min (min n text.length) ucap = min n text.length := by omega
    have h0 : ¬ (copy_to_user ucap (buf_of text) (min n text.length)).1 ≠ 0 := by
      show ¬ (min n text.length - min (min n text.length) ucap ≠ 0)
      omega
    rw [if_neg h0]
    show _ ∧ (buf_of text).take (min (min n text.length) ucap) = _ ∧
      ((buf_of text).take (min (min n text.length) ucap)).length = _ ∧
      ((buf_of text).take (min (min n text.length) ucap)).length ≤ n
    rw [hm, take_buf_of text _ (by omega), List.length_take]
    refine ⟨rfl, rfl, by omega, by omega⟩
  · intro hcap
    generalize report_text (run_rows (collect s) d.info_mask) = text at hcap ⊢
    have hk : (if n > text.length then text.length else n) = min n text.length := by
      split <;> omega
    rw [hk]
    have h0 : (copy_to_user ucap (buf_of text) (min n text.length)).1 ≠ 0 := by
      show min n text.length - min (min n text.length) ucap ≠ 0
      omega
    rw [if_pos h0]

theorem read_truncates_witness :
    ∃ text r, report sample (-1) = some text ∧
      kfetch_read Dev.init sample 100 30 0 = some r ∧
      (min 30 text.length ≤ 100 →
        r.ret = ((min 30 text.length : Nat) : Int) ∧
        r.delivered = text.take (min 30 text.length) ∧
        r.delivered.length = min 30 text.length ∧ r.delivered.length ≤ 30) ∧
      (100 < min 30 text.length → r.ret = -1) :=
  read_truncates Dev.init sample 100 30 0 (by decide)

/-! ### The remaining properties of read, write, open and release -/

theorem run_rows_short (s : Snapshot) (mask : Int) (h : (cstr s.nodename).length < 64) :
    run_rows (collect s) mask = all_rows (collect s) mask := by
  have h1 := info_rows_eq s mask h.le
  rw [info_rows_short s mask h] at h1
  exact (Option.some.inj h1).symm

/-- C19: when the host name has at most 63 characters, the report is the newline-join of
the eight lines `logo_lines[i] ++ info[i]` for the strings `info` copied into `info_buf`;
its length is 8 times the 19 characters of a logo row, plus 7, plus the lengths of the info
fragments; that length is at most 663, so the report with its terminator fits the buffer. -/
theorem report_layout (s : Snapshot) (mask : Int) (h : (cstr s.nodename).length ≤ 63) :
    ∃ r, report s mask = some r ∧
      info_rows s mask = some (all_rows (collect s) mask) ∧
      r = List.intercalate ['\n']
        (List.zipWith (fun l i => l ++ i) logo_lines (all_rows (collect s) mask)) ∧
      r.length = 8 * 19 + 7 + ((all_rows (collect s) mask).map List.length).sum ∧
      r.length ≤ 663 ∧ r.length + 1 ≤ BUF_SIZE := by
  have hlt : (cstr s.nodename).length < 64 := by omega
  have hfit := collect_fits s hlt.le
  have hrep := report_eq s mask hlt.le
  rw [run_rows_short s mask hlt] at hrep
  refine ⟨_, hrep, info_rows_short s mask hlt, ?_⟩
  obtain ⟨r2, r3, r4, r5, r6, r7, e, h2, h3, h4, h5, h6, h7⟩ :=
    all_rows_tail (collect s) mask hfit
  have hh : (collect s).hostname.length ≤ 63 := h
  have hd : (collect s).divider.length ≤ 63 := by
    show (List.replicate (cstr s.nodename).length '-').length ≤ 63
    rw [List.length_replicate]; exact h
  have hb : BUF_SIZE = 1024 := rfl
  unfold all_rows
  rw [e, report_text_length]
  refine ⟨report_text_eq _ _ _ _ _ _ _ _, ?_, ?_, ?_⟩
  · simp only [List.map_cons, List.map_nil, List.sum_cons, List.sum_nil]
    omega
  · omega
  · omega

theorem report_layout_witness :
    ∃ r, report sample (-1) = some r ∧
      info_rows sample (-1) = some (all_rows (collect sample) (-1)) ∧
      r = List.intercalate ['\n']
        (List.zipWith (fun l i => l ++ i) logo_lines (all_rows (collect sample) (-1))) ∧
      r.length = 8 * 19 + 7 + ((all_rows (collect sample) (-1)).map List.length).sum ∧
      r.length ≤ 663 ∧ r.length + 1 ≤ BUF_SIZE :=
  report_layout sample (-1) (by decide)

theorem int_and_examples :
    int_and (-1) 63 = 63 ∧ int_and 97 63 = 33 ∧ int_and (-64) 63 = 0 ∧ int_and 64 63 = 0 := by
  decide

theorem flag_set_int_and (m : Int) (f : Nat) (hf : 63 &&& f = f) :
    flag_set (int_and m 63) f = flag_set m f := by
  have h63 : ((63 : Int) % 2 ^ 32).toNat = 63 := by decide
  have hle : (m % 2 ^ 32).toNat &&& 63 ≤ 63 := Nat.and_le_right
  have hpat : ((int_and m 63) % 2 ^ 32).toNat = (m % 2 ^ 32).toNat &&& 63 := by
    unfold int_and sint
    rw [h63]
    generalize (m % 2 ^ 32).toNat &&& 63 = y at hle
    norm_num
    omega
  unfold flag_set
  rw [hpat, Nat.land_assoc, hf]

theorem fill_info_buf_int_and (info : sys_info) (m : Int) :
    fill_info_buf info (int_and m 63) = fill_info_buf info m := by
  unfold fill_info_buf
  rw [flag_set_int_and m KFETCH_RELEASE (by decide),
    flag_set_int_and m KFETCH_CPU_MODEL (by decide),
    flag_set_int_and m KFETCH_NUM_CPUS (by decide),
    flag_set_int_and m KFETCH_MEM (by decide),
    flag_set_int_and m KFETCH_NUM_PROCS (by decide),
    flag_set_int_and m KFETCH_UPTIME (by decide)]

/-- C12: for every snapshot and every mask, rendering with the mask and rendering with the
mask restricted to the six flag bits (`mask & 0x3F`) give the same `info_buf` rows, the same
`kfetch_buf` and the same report; and a write of any four bytes succeeds, whatever bits
they set. -/
theorem render_ignores_other_bits (s : Snapshot) (m : Int) :
    info_rows s (int_and m 63) = info_rows s m ∧
    render s (int_and m 63) = render s m ∧
    report s (int_and m 63) = report s m ∧
    ∀ (d : Dev) (b0 b1 b2 b3 : Nat),
      kfetch_write d [b0, b1, b2, b3] 4
        = some (0, { d with info_mask := bytes_int [b0, b1, b2, b3] }) := by
  have hr : render s (int_and m 63) = render s m := by
    unfold render
    rw [fill_info_buf_int_and]
  refine ⟨?_, hr, ?_, fun d b0 b1 b2 b3 => kfetch_write_four d b0 b1 b2 b3 []⟩
  · unfold info_rows
    rw [fill_info_buf_int_and]
  · unfold report
    rw [hr]

theorem optional_lines_zero (info : sys_info) : optional_lines info 0 = [] := by
  unfold optional_lines
  rw [show flag_set 0 KFETCH_RELEASE = false from by decide,
    show flag_set 0 KFETCH_CPU_MODEL = false from by decide,
    show flag_set 0 KFETCH_NUM_CPUS = false from by decide,
    show flag_set 0 KFETCH_MEM = false from by decide,
    show flag_set 0 KFETCH_NUM_PROCS = false from by decide,
    show flag_set 0 KFETCH_UPTIME = false from by decide]
  rfl

theorem optional_lines_all (info : sys_info) :
    optional_lines info (-1)
      = [info.kernel, info.cpu, info.cpus, info.mem, info.procs, info.uptime] := by
  unfold optional_lines
  rw [show flag_set (-1) KFETCH_RELEASE = true from by decide,
    show flag_set (-1) KFETCH_CPU_MODEL = true from by decide,
    show flag_set (-1) KFETCH_NUM_CPUS = true from by decide,
    show flag_set (-1) KFETCH_MEM = true from by decide,
    show flag_set (-1) KFETCH_NUM_PROCS = true from by decide,
    show flag_set (-1) KFETCH_UPTIME = true from by decide]
  rfl

theorem mask_zero_rows (s : Snapshot) (h : (cstr s.nodename).length ≤ 63) :
    info_rows s 0
      = some [cstr s.nodename, List.replicate (cstr s.nodename).length '-', [], [], [], [],
          [], []] := by
  rw [info_rows_short s 0 (by omega)]
  unfold all_rows
  rw [optional_lines_zero]
  rfl

set_option maxRecDepth 1000000 in
theorem mask_zero_node1 :
    kfetch_write Dev.init [0, 0, 0, 0] 4 = some (0, { Dev.init with info_mask := 0 }) ∧
    info_rows sample 0 = some ["node1".toList, "-----".toList, [], [], [], [], [], []] := by
  decide

set_option maxRecDepth 1000000 in
/-- C13, at the failing input: with a host name of 64 characters and the mask 0 the string
read from row 0 of `info_buf` is the host name followed by the 64 dashes of the divider, not
the host name alone. -/
theorem info_rows_host64_mask_zero :
    info_rows host64 0
      = some [ List.replicate 64 'a' ++ List.replicate 64 '-', List.replicate 64 '-',
          [], [], [], [], [], [] ] := by
  decide

theorem kfetch_read_frame (d : Dev) (s : Snapshot) (ucap n : Nat) (offset : Int)
    (r : ReadResult) (h : kfetch_read d s ucap n offset = some r) :
    r.dev = d ∧ r.offset = offset := by
  have key : ∀ (c : Prop) [Decidable c] (a b : ReadResult), a.dev = d → a.offset = offset →
      b.dev = d → b.offset = offset → (if c then a else b) = r →
      r.dev = d ∧ r.offset = offset := by
    intro c _ a b h1 h2 h3 h4 h5
    by_cases hc : c
    · rw [if_pos hc] at h5
      rw [← h5]
      exact ⟨h1, h2⟩
    · rw [if_neg hc] at h5
      rw [← h5]
      exact ⟨h3, h4⟩
  unfold kfetch_read at h
  obtain ⟨buf, _, h2⟩ := Option.bind_eq_some.mp h
  obtain ⟨text, _, hr⟩ := Option.map_eq_some'.mp h2
  exact key _ _ _ rfl rfl rfl rfl hr

/-- The outcome of a read: every read of at least the size of the report whose caller can
take the report returns the size and delivers the whole report. -/
theorem kfetch_read_whole (d : Dev) (s : Snapshot) (ucap n : Nat) (offset : Int)
    (hfit : (cstr s.nodename).length ≤ 64) :
    ∃ text r, report s d.info_mask = some text ∧ kfetch_read d s ucap n offset = some r ∧
      r.dev = d ∧ r.offset = offset ∧
      (min n text.length ≤ ucap →
        r.ret = ((min n text.length : Nat) : Int) ∧
        r.delivered = text.take (min n text.length)) ∧
      text.length ≤ 855 := by
  have hread := kfetch_read_eq d s ucap n offset hfit _ rfl
  have hframe := kfetch_read_frame d s ucap n offset _ hread
  refine ⟨_, _, report_eq s d.info_mask hfit, hread,
    hframe.1, hframe.2, ?_, report_text_run_rows_length _ _ (collect_fits s hfit)⟩
  · intro hcap
    generalize report_text (run_rows (collect s) d.info_mask) = text at hcap ⊢
    have hk : (if n > text.length then text.length else n) = min n text.length := by
      split <;> omega
    rw [hk]
    have hm : min (min n text.length) ucap = min n text.length := by omega
    have h0 : ¬ (copy_to_user ucap (buf_of text) (min n text.length)).1 ≠ 0 := by
      show ¬ (min n text.length - min (min n text.length) ucap ≠ 0)
      omega
    rw [if_neg h0]
    show _ ∧ (buf_of text).take (min (min n text.length) ucap) = _
    rw [hm, take_buf_of text _ (by omega)]
    exact ⟨rfl, rfl⟩

theorem run_rows_filled (s : Snapshot) (mask : Int) (hne : cstr s.nodename ≠ [])
    (hfit : (cstr s.nodename).length ≤ 64) :
    filled (run_rows (collect s) mask) = 2 + flag_count mask := by
  have hf := collect_fits s hfit
  obtain ⟨r2, r3, r4, r5, r6, r7, e, _, e2⟩ := run_rows_explicit (collect s) mask hf
  have hh : (collect s).hostname ≠ [] := hne
  have hd : (collect s).divider ≠ [] := by
    show List.replicate (cstr s.nodename).length '-' ≠ []
    intro h0
    have h1 := congrArg List.length h0
    rw [List.length_replicate] at h1
    exact hne (List.length_eq_zero.mp h1)
  have h1 : (if (collect s).divider.length < 64 then (collect s).divider
      else (collect s).divider ++ r2) ≠ [] := by
    split
    · exact hd
    · exact List.append_ne_nil_of_left_ne_nil hd _
  have h0 : (if (collect s).hostname.length < 64 then (collect s).hostname
      else (collect s).hostname ++ (if (collect s).divider.length < 64 then (collect s).divider
        else (collect s).divider ++ r2)) ≠ [] := by
    split
    · exact hh
    · exact List.append_ne_nil_of_left_ne_nil hh _
  have htail : filled [r2, r3, r4, r5, r6, r7] = flag_count mask := by
    rw [← e, filled_append, filled_replicate_nil,
      filled_of_ne_nil _ (optional_lines_ne_nil s mask), optional_lines_count]
    rfl
  rw [e2, filled_cons_ne_nil _ _ h0, filled_cons_ne_nil _ _ h1, htail]
  omega

set_option maxRecDepth 1000000 in
/-- C14, counterexample: with an empty host name and the default mask -1 only 6 of the 8
rows carry a non-empty info fragment: the host name row and the divider row are empty. -/
theorem default_report_empty_hostname :
    Dev.init.info_mask = -1 ∧
    (info_rows no_host Dev.init.info_mask).map filled = some 6 ∧
    (info_rows no_host Dev.init.info_mask).map (List.take 2) = some [[], []] := by
  decide

/-- C14, amended: after module load the mask is -1 and all six flags are set in it; for
every snapshot whose host name is not empty and fits the `nodename` field, rendering with
that mask fills all 8 rows, rows 2 to 7 being the six optional lines in their order, and a
read of 1024 bytes into a buffer that takes the report returns the size of the report and
delivers the whole report; a write of the four bytes that encode -1 sets the mask to -1. -/
theorem default_report_maximal (s : Snapshot) (ucap : Nat) (offset : Int)
    (hne : cstr s.nodename ≠ []) (hfit : (cstr s.nodename).length ≤ 64) :
    Dev.init.info_mask = -1 ∧ flag_count (-1) = 6 ∧
    (info_rows s (-1)).map filled = some 8 ∧
    (info_rows s (-1)).map (List.drop 2)
      = some [(collect s).kernel, (collect s).cpu, (collect s).cpus, (collect s).mem,
          (collect s).procs, (collect s).uptime] ∧
    (∃ text r, report s (-1) = some text ∧
      kfetch_read Dev.init s ucap 1024 offset = some r ∧
      (text.length ≤ ucap → r.ret = (text.length : Int) ∧ r.delivered = text)) ∧
    ∀ d : Dev, kfetch_write d [255, 255, 255, 255] 4 = some (0, { d with info_mask := -1 }) := by
  have hcount : flag_count (-1) = 6 := by decide
  refine ⟨rfl, hcount, ?_, ?_, ?_, ?_⟩
  · rw [info_rows_eq s (-1) hfit, Option.map_some', run_rows_filled s (-1) hne hfit, hcount]
  · obtain ⟨r2, r3, r4, r5, r6, r7, e, _, e2⟩ :=
      run_rows_explicit (collect s) (-1) (collect_fits s hfit)
    rw [optional_lines_all] at e
    have e' : [(collect s).kernel, (collect s).cpu, (collect s).cpus, (collect s).mem,
        (collect s).procs, (collect s).uptime] = [r2, r3, r4, r5, r6, r7] := e
    rw [info_rows_eq s (-1) hfit, e2, e']
    rfl
  · obtain ⟨text, r, h1, h2, _, _, h3, h4⟩ := kfetch_read_whole Dev.init s ucap 1024 offset hfit
    refine ⟨text, r, h1, h2, ?_⟩
    intro hcap
    have hm : min 1024 text.length = text.length := by omega
    have := h3 (by omega)
    rw [hm, List.take_length] at this
    exact this
  · intro d
    have := kfetch_write_four d 255 255 255 255 []
    rw [this]
    rfl

theorem default_report_maximal_witness :
    Dev.init.info_mask = -1 ∧ flag_count (-1) = 6 ∧
    (info_rows sample (-1)).map filled = some 8 ∧
    (info_rows sample (-1)).map (List.drop 2)
      = some [(collect sample).kernel, (collect sample).cpu, (collect sample).cpus,
          (collect sample).mem, (collect sample).procs, (collect sample).uptime] ∧
    (∃ text r, report sample (-1) = some text ∧
      kfetch_read Dev.init sample 1024 1024 0 = some r ∧
      (text.length ≤ 1024 → r.ret = (text.length : Int) ∧ r.delivered = text)) ∧
    ∀ d : Dev, kfetch_write d [255, 255, 255, 255] 4 = some (0, { d with info_mask := -1 }) :=
  default_report_maximal sample 1024 0 (by decide) (by decide)

theorem kfetch_open_mask (d : Dev) : (kfetch_open d).2.info_mask = d.info_mask := by
  unfold kfetch_open
  dsimp only
  split <;> rfl

theorem kfetch_release_mask (d : Dev) : (kfetch_release d).2.info_mask = d.info_mask := rfl

theorem call_mask (d d1 : Dev) (c : Call) (h : call d c = some d1) :
    d1.info_mask = d.info_mask := by
  cases c with
  | opens =>
    simp only [call, Option.some.injEq] at h
    rw [← h]; exact kfetch_open_mask d
  | releases =>
    simp only [call, Option.some.injEq] at h
    rw [← h]; rfl
  | reads s ucap n offset =>
    simp only [call] at h
    obtain ⟨r, hr, e⟩ := Option.map_eq_some'.mp h
    rw [← e, (kfetch_read_frame d s ucap n offset r hr).1]

theorem calls_mask (cs : List Call) : ∀ (d d1 : Dev), calls d cs = some d1 →
    d1.info_mask = d.info_mask := by
  induction cs with
  | nil =>
    intro d d1 h
    simp only [calls, List.foldlM_nil, Option.pure_def, Option.some.injEq] at h
    rw [h]
  | cons c cs ih =>
    intro d d1 h
    unfold calls at h
    rw [List.foldlM_cons] at h
    obtain ⟨d2, h2, h3⟩ := Option.bind_eq_some.mp h
    rw [ih d2 d1 h3, call_mask d d2 c h2]

theorem kfetch_read_same_mask (d1 d2 : Dev) (s : Snapshot) (ucap n : Nat) (offset : Int)
    (h : d1.info_mask = d2.info_mask) :
    (kfetch_read d1 s ucap n offset).map (fun r => (r.ret, r.delivered))
      = (kfetch_read d2 s ucap n offset).map (fun r => (r.ret, r.delivered)) := by
  have key : ∀ (c : Prop) [Decidable c] (x y : Int) (l : List Char) (o : Int),
      (fun r : ReadResult => (r.ret, r.delivered))
          (if c then { ret := x, delivered := l, dev := d1, offset := o }
            else { ret := y, delivered := l, dev := d1, offset := o })
        = (fun r : ReadResult => (r.ret, r.delivered))
          (if c then { ret := x, delivered := l, dev := d2, offset := o }
            else { ret := y, delivered := l, dev := d2, offset := o }) := by
    intro c _ x y l o
    by_cases hc : c
    · rw [if_pos hc, if_pos hc]
    · rw [if_neg hc, if_neg hc]
  unfold kfetch_read
  rw [h]
  cases render s d2.info_mask with
  | none => rfl
  | some buf =>
    rw [Option.some_bind, Option.some_bind]
    cases cstrAt buf 0 with
    | none => rfl
    | some text =>
      rw [Option.map_some', Option.map_some', Option.map_some', Option.map_some']
      exact congrArg some (key _ _ _ _ _)

/-- C15: `kfetch_read` returns the module state and the file offset it was given; so for
every snapshot whose host name fits the `nodename` field, a read of length `n` that follows
a read of length `k` has the same result as the same read without the first one, and when
the caller can take the bytes it delivers the first `min n size` bytes of the report from
its beginning. -/
theorem read_has_no_cursor (d : Dev) (s : Snapshot) (ucap1 ucap2 k n : Nat) (offset : Int)
    (hfit : (cstr s.nodename).length ≤ 64) :
    (∀ r, kfetch_read d s ucap1 k offset = some r → r.dev = d ∧ r.offset = offset) ∧
    ∃ r1 r2 text, kfetch_read d s ucap1 k offset = some r1 ∧
      kfetch_read r1.dev s ucap2 n r1.offset = some r2 ∧
      kfetch_read d s ucap2 n offset = some r2 ∧
      r2.dev = d ∧ r2.offset = offset ∧
      report s d.info_mask = some text ∧
      (min n text.length ≤ ucap2 →
        r2.ret = ((min n text.length : Nat) : Int) ∧
        r2.delivered = text.take (min n text.length)) := by
  refine ⟨fun r h => kfetch_read_frame d s ucap1 k offset r h, ?_⟩
  obtain ⟨_, r1, _, h1, hd1, ho1, _, _⟩ := kfetch_read_whole d s ucap1 k offset hfit
  obtain ⟨text, r2, ht, h2, hd2, ho2, h3, _⟩ := kfetch_read_whole d s ucap2 n offset hfit
  refine ⟨r1, r2, text, h1, ?_, h2, hd2, ho2, ht, h3⟩
  rw [hd1, ho1]
  exact h2

set_option maxRecDepth 1000000 in
theorem read_has_no_cursor_witness :
    (cstr sample.nodename).length ≤ 64 ∧
    ((∀ r, kfetch_read Dev.init sample 100 5 0 = some r → r.dev = Dev.init ∧ r.offset = 0) ∧
    ∃ r1 r2 text, kfetch_read Dev.init sample 100 5 0 = some r1 ∧
      kfetch_read r1.dev sample 100 24 r1.offset = some r2 ∧
      kfetch_read Dev.init sample 100 24 0 = some r2 ∧
      r2.dev = Dev.init ∧ r2.offset = 0 ∧
      report sample Dev.init.info_mask = some text ∧
      (min 24 text.length ≤ 100 →
        r2.ret = ((min 24 text.length : Nat) : Int) ∧
        r2.delivered = text.take (min 24 text.length))) :=
  ⟨by decide, read_has_no_cursor Dev.init sample 100 100 5 24 0 (by decide)⟩

/-- C16: `kfetch_open`, `kfetch_release` and `kfetch_read` leave the mask unchanged; so
after a write of four bytes and any sequence of opens, releases and reads the mask is still
the value of those four bytes, and a read returns and delivers what a read right after the
write would. -/
theorem mask_changed_by_write_only (d d1 : Dev) (b0 b1 b2 b3 : Nat) (cs : List Call)
    (s : Snapshot) (ucap n : Nat) (offset : Int)
    (h : calls { d with info_mask := bytes_int [b0, b1, b2, b3] } cs = some d1) :
    (kfetch_open d).2.info_mask = d.info_mask ∧
    (kfetch_release d).2.info_mask = d.info_mask ∧
    (∀ r, kfetch_read d s ucap n offset = some r → r.dev.info_mask = d.info_mask) ∧
    kfetch_write d [b0, b1, b2, b3] 4
      = some (0, { d with info_mask := bytes_int [b0, b1, b2, b3] }) ∧
    d1.info_mask = bytes_int [b0, b1, b2, b3] ∧
    (kfetch_read d1 s ucap n offset).map (fun r => (r.ret, r.delivered))
      = (kfetch_read { d with info_mask := bytes_int [b0, b1, b2, b3] } s ucap n offset).map
          (fun r => (r.ret, r.delivered)) := by
  have hm := calls_mask cs _ d1 h
  refine ⟨kfetch_open_mask d, rfl, ?_, kfetch_write_four d b0 b1 b2 b3 [], hm,
    kfetch_read_same_mask _ _ s ucap n offset hm⟩
  intro r hr
  rw [(kfetch_read_frame d s ucap n offset r hr).1]

set_option maxRecDepth 1000000 in
theorem mask_changed_by_write_only_witness :
    calls { ({ info_mask := -1, device_opened := 1, refcnt := 1 } : Dev) with
        info_mask := bytes_int [0, 0, 0, 0] }
      [Call.releases, Call.opens, Call.reads sample 100 30 0, Call.releases, Call.opens]
      = some { info_mask := 0, device_opened := 1, refcnt := 1 } ∧
    ((kfetch_open ⟨-1, 1, 1⟩).2.info_mask = -1 ∧
    (kfetch_release ⟨-1, 1, 1⟩).2.info_mask = -1 ∧
    (∀ r, kfetch_read ⟨-1, 1, 1⟩ sample 100 30 0 = some r → r.dev.info_mask = -1) ∧
    kfetch_write ⟨-1, 1, 1⟩ [0, 0, 0, 0] 4
      = some (0, { info_mask := bytes_int [0, 0, 0, 0], device_opened := 1, refcnt := 1 }) ∧
    (0 : Int) = bytes_int [0, 0, 0, 0] ∧
    (kfetch_read ⟨0, 1, 1⟩ sample 100 30 0).map (fun r => (r.ret, r.delivered))
      = (kfetch_read ⟨bytes_int [0, 0, 0, 0], 1, 1⟩ sample 100 30 0).map
          (fun r => (r.ret, r.delivered))) :=
  ⟨by decide, mask_changed_by_write_only ⟨-1, 1, 1⟩ ⟨0, 1, 1⟩ 0 0 0 0
    [Call.releases, Call.opens, Call.reads sample 100 30 0, Call.releases, Call.opens]
    sample 100 30 0 (by decide)⟩

/-- C17: a `kfetch_open` that returns `-EBUSY` returns the module state unchanged: the
device is still opened and the mask is the same, and a read, a write or a release that
follows behaves as it does without the failed open. -/
theorem busy_open_changes_nothing (d : Dev) (h : (kfetch_open d).1 = -EBUSY) :
    (kfetch_open d).2 = d ∧ d.device_opened ≠ DEV_NOT_USED ∧
    (∀ (s : Snapshot) (ucap n : Nat) (offset : Int),
      kfetch_read (kfetch_open d).2 s ucap n offset = kfetch_read d s ucap n offset) ∧
    (∀ (buffer : List Nat) (n : Nat),
      kfetch_write (kfetch_open d).2 buffer n = kfetch_write d buffer n) ∧
    kfetch_release (kfetch_open d).2 = kfetch_release d := by
  have hopen : d.device_opened ≠ DEV_NOT_USED := by
    intro h0
    simp [kfetch_open, atomic_cmpxchg, h0, DEV_NOT_USED, EBUSY] at h
  have hstate : (kfetch_open d).2 = d := by
    unfold kfetch_open atomic_cmpxchg
    dsimp only
    rw [if_neg hopen]
    have h1 : d.device_opened ≠ 0 := hopen
    dsimp only
    rw [if_pos h1]
  refine ⟨hstate, hopen, ?_, ?_, ?_⟩
  · intro s ucap n offset
    rw [hstate]
  · intro buffer n
    rw [hstate]
  · rw [hstate]

theorem busy_open_changes_nothing_witness :
    (kfetch_open ⟨5, DEV_EXCLUSIVE_OPEN, 1⟩).1 = -EBUSY ∧
    ((kfetch_open ⟨5, DEV_EXCLUSIVE_OPEN, 1⟩).2 = ⟨5, DEV_EXCLUSIVE_OPEN, 1⟩ ∧
    DEV_EXCLUSIVE_OPEN ≠ DEV_NOT_USED ∧
    (∀ (s : Snapshot) (ucap n : Nat) (offset : Int),
      kfetch_read (kfetch_open ⟨5, DEV_EXCLUSIVE_OPEN, 1⟩).2 s ucap n offset
        = kfetch_read ⟨5, DEV_EXCLUSIVE_OPEN, 1⟩ s ucap n offset) ∧
    (∀ (buffer : List Nat) (n : Nat),
      kfetch_write (kfetch_open ⟨5, DEV_EXCLUSIVE_OPEN, 1⟩).2 buffer n
        = kfetch_write ⟨5, DEV_EXCLUSIVE_OPEN, 1⟩ buffer n) ∧
    kfetch_release (kfetch_open ⟨5, DEV_EXCLUSIVE_OPEN, 1⟩).2
      = kfetch_release ⟨5, DEV_EXCLUSIVE_OPEN, 1⟩) :=
  ⟨by decide, busy_open_changes_nothing ⟨5, DEV_EXCLUSIVE_OPEN, 1⟩ (by decide)⟩

theorem bytes_int_int_bytes (m : Int) (h1 : -2 ^ 31 ≤ m) (h2 : m < 2 ^ 31) :
    bytes_int (int_bytes m) = m := by
  have hu : (((m % 2 ^ 32).toNat : Nat) : Int) = m % 2 ^ 32 :=
    Int.toNat_of_nonneg (Int.emod_nonneg _ (by norm_num))
  have hlt : (m % 2 ^ 32).toNat < 2 ^ 32 := by
    have := Int.emod_lt_of_pos m (by norm_num : (0 : Int) < 2 ^ 32)
    omega
  unfold bytes_int int_bytes
  dsimp only
  generalize (m % 2 ^ 32).toNat = u at hu hlt
  have hv : le_value [u % 256, u / 256 % 256, u / 65536 % 256, u / 16777216 % 256] = u := by
    simp only [le_value]
    omega
  rw [hv]
  unfold sint
  norm_num at h1 h2 hu hlt ⊢
  omega

theorem copy_from_user_ok (dst user : List Nat) (k : Nat) (hk : k ≤ dst.length)
    (hlen : k ≤ user.length) :
    copy_from_user dst user k
      = some (0, (user.take k).map (fun b => b % 256) ++ dst.drop k) := by
  have hm : min k user.length = k := by omega
  unfold copy_from_user
  rw [if_pos hk, hm, Nat.sub_self, List.replicate_zero, List.append_nil]

/-- C18: a write of `k ≤ 4` bytes that can all be read succeeds; the `k` low-order bytes of
the new mask are the supplied bytes and its other bytes are those of the mask before the
call; the open flag and the usage count are unchanged; a write of 0 bytes leaves the whole
state unchanged. -/
theorem short_write (d : Dev) (buffer : List Nat) (k : Nat) (hk : k ≤ 4)
    (hlen : k ≤ buffer.length) (h1 : -2 ^ 31 ≤ d.info_mask) (h2 : d.info_mask < 2 ^ 31) :
    ∃ d1, kfetch_write d buffer k = some (0, d1) ∧
      d1.device_opened = d.device_opened ∧ d1.refcnt = d.refcnt ∧
      int_bytes d1.info_mask
        = (buffer.take k).map (fun b => b % 256) ++ (int_bytes d.info_mask).drop k ∧
      (k = 0 → d1 = d) := by
  have hc := copy_from_user_ok (int_bytes d.info_mask) buffer k
    (by rw [int_bytes_length]; exact hk) hlen
  obtain ⟨hl4, hb4⟩ := copied_bytes_ok (int_bytes d.info_mask) buffer k k
    (int_bytes_length _) hk le_rfl hlen (int_bytes_lt _)
  rw [Nat.sub_self] at hl4 hb4
  have e0 : (buffer.take k).map (fun b => b % 256) ++ List.replicate 0 0
      ++ (int_bytes d.info_mask).drop k
      = (buffer.take k).map (fun b => b % 256) ++ (int_bytes d.info_mask).drop k := by
    rw [List.replicate_zero, List.append_nil]
  rw [e0] at hl4 hb4
  refine ⟨{ d with info_mask := bytes_int ((buffer.take k).map (fun b => b % 256)
    ++ (int_bytes d.info_mask).drop k) }, ?_, rfl, rfl, int_bytes_bytes_int _ hl4 hb4, ?_⟩
  · unfold kfetch_write
    rw [hc]
    rfl
  · intro hk0
    subst hk0
    have e1 : (buffer.take 0).map (fun b => b % 256) ++ (int_bytes d.info_mask).drop 0
        = int_bytes d.info_mask := rfl
    rw [e1, bytes_int_int_bytes d.info_mask h1 h2]

theorem short_write_witness :
    ∃ d1, kfetch_write Dev.init [0, 7] 1 = some (0, d1) ∧
      d1.device_opened = Dev.init.device_opened ∧ d1.refcnt = Dev.init.refcnt ∧
      int_bytes d1.info_mask
        = ([0, 7].take 1).map (fun b => b % 256) ++ (int_bytes Dev.init.info_mask).drop 1 ∧
      (1 = 0 → d1 = Dev.init) :=
  short_write Dev.init [0, 7] 1 (by decide) (by decide) (by decide) (by decide)

theorem short_write_not_zero_filled :
    kfetch_write Dev.init [0, 7] 1 = some (0, { Dev.init with info_mask := -256 }) ∧
    kfetch_write Dev.init [] 0 = some (0, Dev.init) := by
  decide

theorem fmt_d_nat (x : Nat) : fmt_d (x : Int) = Nat.toDigits 10 x := by
  unfold fmt_d
  rw [if_neg (by omega), Int.natAbs_ofNat]

theorem sint64_nat (x : Nat) (h : x < 2 ^ 63) : sint 64 (x : Int) = (x : Int) := by
  unfold sint
  norm_num at h ⊢
  omega

theorem mem_mb_lt (p u : Nat) : mem_mb p u < 2 ^ 63 := by
  unfold mem_mb
  generalize (p % 2 ^ 64) * (u % 2 ^ 32) = a
  norm_num
  omega

theorem mem_mb_exact (p u : Nat) (hp : p < 2 ^ 64) (hu : u < 2 ^ 32) (h : p * u < 2 ^ 63) :
    mem_mb p u = p * u / 2 ^ 20 := by
  unfold mem_mb
  rw [Nat.mod_eq_of_lt hp, Nat.mod_eq_of_lt hu, Nat.mod_eq_of_lt (by omega)]
  norm_num

theorem mem_line (s : Snapshot) :
    (collect s).mem
      = snprintf 64 ("Mem:      ".toList ++ Nat.toDigits 10 (mem_mb s.freeram s.mem_unit)
          ++ " MB / ".toList ++ Nat.toDigits 10 (mem_mb s.totalram s.mem_unit)
          ++ " MB".toList) := by
  show snprintf 64 ("Mem:      ".toList ++ fmt_d (sint 64 (mem_mb s.freeram s.mem_unit))
      ++ " MB / ".toList ++ fmt_d (sint 64 (mem_mb s.totalram s.mem_unit)) ++ " MB".toList) = _
  rw [sint64_nat _ (mem_mb_lt _ _), sint64_nat _ (mem_mb_lt _ _), fmt_d_nat, fmt_d_nat]

theorem uptime_mins_nonneg (t : Int) (h0 : 0 ≤ t) (h1 : t < 2 ^ 63) :
    uptime_mins t = t / 1000000000 / 60 ∧ uptime_mins t = t / (60 * 1000000000) ∧
    sint 64 (uptime_mins t) = ((t / (60 * 1000000000)).toNat : Int) := by
  have hs : sint 64 t = t := by
    unfold sint
    norm_num at h1 ⊢
    omega
  have e1 : uptime_mins t = t / 1000000000 / 60 := by
    unfold uptime_mins NSEC_PER_SEC
    rw [hs, Int.tdiv_eq_ediv h0 (by norm_num),
      Int.tdiv_eq_ediv (Int.ediv_nonneg h0 (by norm_num)) (by norm_num)]
  have e2 : t / 1000000000 / 60 = t / (60 * 1000000000) := by
    norm_num
    omega
  refine ⟨e1, e1.trans e2, ?_⟩
  rw [e1, e2]
  unfold sint
  norm_num at h1 ⊢
  omega

/-- C20: the Mem line prints `pages * mem_unit / 2^20` for the free and the total pages,
the product taken modulo `2^64`; when the products are below `2^63` these are the exact
whole megabytes.  The Uptime line prints the boot time divided by `10^9` and then by 60,
which for a boot time that is not negative is the boot time divided by `60 * 10^9`, rounded
down. -/
theorem mem_and_uptime_lines (s : Snapshot) (hfree : s.freeram < 2 ^ 64)
    (htotal : s.totalram < 2 ^ 64) (hunit : s.mem_unit < 2 ^ 32)
    (h1 : s.freeram * s.mem_unit < 2 ^ 63) (h2 : s.totalram * s.mem_unit < 2 ^ 63)
    (ht0 : 0 ≤ s.boottime) (ht1 : s.boottime < 2 ^ 63) :
    (∀ s1 : Snapshot, (collect s1).mem
      = snprintf 64 ("Mem:      ".toList
          ++ Nat.toDigits 10 ((s1.freeram % 2 ^ 64) * (s1.mem_unit % 2 ^ 32) % 2 ^ 64 / 2 ^ 20)
          ++ " MB / ".toList
          ++ Nat.toDigits 10 ((s1.totalram % 2 ^ 64) * (s1.mem_unit % 2 ^ 32) % 2 ^ 64 / 2 ^ 20)
          ++ " MB".toList)) ∧
    (collect s).mem
      = snprintf 64 ("Mem:      ".toList ++ Nat.toDigits 10 (s.freeram * s.mem_unit / 2 ^ 20)
          ++ " MB / ".toList ++ Nat.toDigits 10 (s.totalram * s.mem_unit / 2 ^ 20)
          ++ " MB".toList) ∧
    uptime_mins s.boottime = s.boottime / 10 ^ 9 / 60 ∧
    uptime_mins s.boottime = s.boottime / (60 * 10 ^ 9) ∧
    (collect s).uptime
      = snprintf 64 ("Uptime:   ".toList
          ++ Nat.toDigits 10 (s.boottime / (60 * 10 ^ 9)).toNat ++ " mins".toList) := by
  obtain ⟨u1, u2, u3⟩ := uptime_mins_nonneg s.boottime ht0 ht1
  refine ⟨?_, ?_, ?_, ?_, ?_⟩
  · intro s1
    have := mem_line s1
    unfold mem_mb at this
    norm_num at this ⊢
    exact this
  · rw [mem_line, mem_mb_exact _ _ hfree hunit h1, mem_mb_exact _ _ htotal hunit h2]
  · norm_num
    exact u1
  · norm_num
    exact u2
  · show snprintf 64 ("Uptime:   ".toList ++ fmt_d (sint 64 (uptime_mins s.boottime))
      ++ " mins".toList) = _
    rw [u3, fmt_d_nat]
    norm_num

theorem sample_mem_uptime :
    (collect sample).mem = "Mem:      390 MB / 7812 MB".toList ∧
    (collect sample).uptime = "Uptime:   60 mins".toList := by
  decide

theorem mem_and_uptime_lines_witness :
    (∀ s1 : Snapshot, (collect s1).mem
      = snprintf 64 ("Mem:      ".toList
          ++ Nat.toDigits 10 ((s1.freeram % 2 ^ 64) * (s1.mem_unit % 2 ^ 32) % 2 ^ 64 / 2 ^ 20)
          ++ " MB / ".toList
          ++ Nat.toDigits 10 ((s1.totalram % 2 ^ 64) * (s1.mem_unit % 2 ^ 32) % 2 ^ 64 / 2 ^ 20)
          ++ " MB".toList)) ∧
    (collect sample).mem
      = snprintf 64 ("Mem:      ".toList
          ++ Nat.toDigits 10 (sample.freeram * sample.mem_unit / 2 ^ 20)
          ++ " MB / ".toList ++ Nat.toDigits 10 (sample.totalram * sample.mem_unit / 2 ^ 20)
          ++ " MB".toList) ∧
    uptime_mins sample.boottime = sample.boottime / 10 ^ 9 / 60 ∧
    uptime_mins sample.boottime = sample.boottime / (60 * 10 ^ 9) ∧
    (collect sample).uptime
      = snprintf 64 ("Uptime:   ".toList
          ++ Nat.toDigits 10 (sample.boottime / (60 * 10 ^ 9)).toNat ++ " mins".toList) :=
  mem_and_uptime_lines sample (by decide) (by decide) (by decide) (by decide)
    (by decide) (by decide) (by decide)

/-! ### A write that faults -/

theorem kfetch_write_fault (d : Dev) (buffer : List Nat) (n : Nat) (hn : n ≤ 4)
    (hlt : buffer.length < n) :
    kfetch_write d buffer n
      = some (-1, { d with info_mask := bytes_int (buffer.map (fun b => b % 256)
          ++ List.replicate (n - buffer.length) 0 ++ (int_bytes d.info_mask).drop n) }) := by
  have hmin : min n buffer.length = buffer.length := by omega
  have hz : n - buffer.length ≠ 0 := by omega
  have hc : copy_from_user (int_bytes d.info_mask) buffer n
      = some (n - buffer.length, buffer.map (fun b => b % 256)
          ++ List.replicate (n - buffer.length) 0 ++ (int_bytes d.info_mask).drop n) := by
    unfold copy_from_user
    rw [if_pos (by rw [int_bytes_length]; exact hn), hmin, List.take_length]
  unfold kfetch_write
  rw [hc, Option.map_some']
  dsimp only
  rw [if_pos hz]

theorem kfetch_write_no_fault (d : Dev) (buffer : List Nat) (n : Nat) (hn : n ≤ 4)
    (hle : n ≤ buffer.length) :
    kfetch_write d buffer n
      = some (0, { d with info_mask := bytes_int ((buffer.take n).map (fun b => b % 256)
          ++ List.replicate 0 0 ++ (int_bytes d.info_mask).drop n) }) := by
  have hmin : min n buffer.length = n := by omega
  have hc : copy_from_user (int_bytes d.info_mask) buffer n
      = some (0, (buffer.take n).map (fun b => b % 256)
          ++ List.replicate 0 0 ++ (int_bytes d.info_mask).drop n) := by
    unfold copy_from_user
    rw [if_pos (by rw [int_bytes_length]; exact hn), hmin, Nat.sub_self]
  unfold kfetch_write
  rw [hc, Option.map_some']
  dsimp only
  rw [if_neg (by decide)]

theorem kfetch_write_fault_state (d : Dev) (buffer : List Nat) (n : Nat) (hn : n ≤ 4)
    (hlt : buffer.length < n) :
    ∃ d1 : Dev, kfetch_write d buffer n = some (-1, d1) ∧
      d1.device_opened = d.device_opened ∧ d1.refcnt = d.refcnt ∧
      d1.info_mask = bytes_int (buffer.map (fun b => b % 256)
          ++ List.replicate (n - buffer.length) 0 ++ (int_bytes d.info_mask).drop n) :=
  ⟨_, kfetch_write_fault d buffer n hn hlt, rfl, rfl, rfl⟩

theorem kfetch_write_no_fault_ret (d : Dev) (buffer : List Nat) (n : Nat) (hn : n ≤ 4)
    (hle : n ≤ buffer.length) : ∃ d1 : Dev, kfetch_write d buffer n = some (0, d1) :=
  ⟨_, kfetch_write_no_fault d buffer n hn hle⟩

/-- C7, amended: a `kfetch_write` of at most 4 bytes, the size of the mask, returns; it fails
(returns -1) exactly when fewer bytes are readable than requested; and when it fails, the
open flag and the usage count are unchanged, the first `n` bytes of the mask are the
transferred bytes followed by zero bytes, and the bytes of the mask behind them are
unchanged. -/
theorem failed_write_effect (d : Dev) (buffer : List Nat) (n : Nat) (hn : n ≤ 4) :
    ∃ ret d1, kfetch_write d buffer n = some (ret, d1) ∧ (ret = -1 ↔ buffer.length < n) ∧
      (ret = -1 →
        d1.device_opened = d.device_opened ∧ d1.refcnt = d.refcnt ∧
        (int_bytes d1.info_mask).take n
          = buffer.map (fun b => b % 256) ++ List.replicate (n - buffer.length) 0 ∧
        (int_bytes d1.info_mask).drop n = (int_bytes d.info_mask).drop n) := by
  by_cases hlt : buffer.length < n
  · obtain ⟨d1, hw, ho, hr, hm⟩ := kfetch_write_fault_state d buffer n hn hlt
    refine ⟨-1, d1, hw, ⟨fun _ => hlt, fun _ => rfl⟩, fun _ => ?_⟩
    obtain ⟨hl4, hb4⟩ := copied_bytes_ok (int_bytes d.info_mask) buffer n buffer.length
      (int_bytes_length _) hn hlt.le le_rfl (int_bytes_lt _)
    rw [List.take_length] at hl4 hb4
    have hpre : (buffer.map (fun b => b % 256)
        ++ List.replicate (n - buffer.length) 0).length = n := by
      simp only [List.length_append, List.length_map, List.length_replicate]
      omega
    rw [hm, int_bytes_bytes_int _ hl4 hb4]
    refine ⟨ho, hr, ?_, ?_⟩
    · rw [List.take_left' hpre]
    · rw [List.drop_left' hpre]
  · obtain ⟨d1, hw⟩ := kfetch_write_no_fault_ret d buffer n hn (by omega)
    have h01 : ¬ ((0 : Int) = -1) := by decide
    exact ⟨0, d1, hw, ⟨fun h => absurd h h01, fun h => absurd h hlt⟩, fun h => absurd h h01⟩

theorem failed_write_effect_witness :
    (4 : Nat) ≤ 4 ∧
    ∃ ret d1, kfetch_write Dev.init [1, 2] 4 = some (ret, d1) ∧
      (ret = -1 ↔ [1, 2].length < 4) ∧
      (ret = -1 →
        d1.device_opened = Dev.init.device_opened ∧ d1.refcnt = Dev.init.refcnt ∧
        (int_bytes d1.info_mask).take 4
          = [1, 2].map (fun b => b % 256) ++ List.replicate (4 - [1, 2].length) 0 ∧
        (int_bytes d1.info_mask).drop 4 = (int_bytes Dev.init.info_mask).drop 4) :=
  ⟨by decide, failed_write_effect Dev.init [1, 2] 4 (by decide)⟩

end Kfetch
